import Mathlib

/-!
# Bounded-concurrency gate for AI clients (`application/services/ai_service_concurrency.go`)

A shallow embedding of the Go package `services`:

* `AIServiceSettings` and `concurrencyLimit` (the limit policy);
* `aiConcurrencyLimiter`, its buffered channel, `acquire` and the release closure;
* the process-wide registry `aiConcurrencyLimiters` and `getLimiterForConfig`;
* the interleavings of calls that go through the decorator `limitedAIClient`;
* `parseAIServiceSettings`, with the JSON decoder as a parameter;
* the values of the interface `ai.AIClient`, `wrapAIClientWithLimiter` and the three methods
  of the decorator.

Modelling conventions.

* Go `int` and `uint` values are only compared and stored by this code, never used in
  arithmetic, so they are embedded as `Int` and `Nat`.
* A Go pointer `*T` that may be `nil` is an `Option`; `nil` is `none`.
* A `*aiConcurrencyLimiter` is an index into the list of limiter objects allocated so far
  (`State.heap`); two pointers are the same reference exactly when the indices are equal.
* A `chan struct{}` carries no data, so a buffered channel is its capacity together with the
  number of elements currently queued.
* A blocking operation is a partial step: `none` means that the step is not enabled.
-/

namespace Services

/-! ## Settings and the limit policy -/

/-- The Go struct `AIServiceSettings`: both fields are pointers, hence optional. -/
structure AIServiceSettings where
  ConcurrencyEnabled : Option Bool
  MaxConcurrency : Option Int
  deriving DecidableEq, Repr

/-- The method `concurrencyLimit` of `AIServiceSettings`, branch by branch. -/
def AIServiceSettings.concurrencyLimit (s : AIServiceSettings) : Int :=
  if s.ConcurrencyEnabled ≠ none ∧ s.ConcurrencyEnabled = some false then 1
  else if s.ConcurrencyEnabled ≠ none then 0
  else
    match s.MaxConcurrency with
    | some m => if m ≤ 0 then 0 else m
    | none => 0

/-! ## The limiter and its channel -/

/-- A Go `chan struct{}`: the buffer capacity fixed at creation and the number of elements
currently queued. -/
structure Chan where
  cap : Nat
  len : Nat
  deriving DecidableEq, Repr

/-- The builtin `make(chan struct{}, size)`. A negative size is a run-time panic, rendered
as `none`. -/
def makeChan (size : Int) : Option Chan :=
  if size < 0 then none else some { cap := size.toNat, len := 0 }

/-- The send statement `ch <- struct{}{}`. It completes when the buffer has a free slot and
blocks (`none`) otherwise. No goroutine of this package ever waits to receive before a send has
completed, so a send never completes by rendezvous. -/
def Chan.send (c : Chan) : Option Chan :=
  if c.len < c.cap then some { c with len := c.len + 1 } else none

/-- The receive expression `<-ch`. It completes when an element is queued and blocks (`none`)
otherwise. -/
def Chan.recv (c : Chan) : Option Chan :=
  if 0 < c.len then some { c with len := c.len - 1 } else none

/-- The Go struct `aiConcurrencyLimiter`. -/
structure aiConcurrencyLimiter where
  limit : Int
  ch : Chan
  deriving DecidableEq, Repr

/-- The constructor `newAIConcurrencyLimiter`: allocates a limiter object and returns the
pointer to it together with the extended heap; `none` when `make` panics. -/
def newAIConcurrencyLimiter (heap : List aiConcurrencyLimiter) (limit : Int) :
    Option (Nat × List aiConcurrencyLimiter) :=
  match makeChan limit with
  | none => none
  | some c => some (heap.length, heap ++ [{ limit := limit, ch := c }])

/-- The method `acquire` up to its `return`: the send `l.ch <- struct{}{}`. The result is the
limiter after the send, `none` while the caller is blocked. The closure that `acquire` returns
is `aiConcurrencyLimiter.release`. -/
def aiConcurrencyLimiter.acquire (l : aiConcurrencyLimiter) : Option aiConcurrencyLimiter :=
  match l.ch.send with
  | some c => some { l with ch := c }
  | none => none

/-- The closure `func() { <-l.ch }` returned by `acquire`. -/
def aiConcurrencyLimiter.release (l : aiConcurrencyLimiter) : Option aiConcurrencyLimiter :=
  match l.ch.recv with
  | some c => some { l with ch := c }
  | none => none

/-! ## The registry -/

/-- The state that `getLimiterForConfig` works on: the limiter objects allocated so far, and the
map `aiConcurrencyLimiters.byConfig` from configuration identity to limiter pointer. The mutex
`aiConcurrencyLimiters.mu` is held over the whole body after the early return, so a call is one
atomic transition of this state. -/
structure State where
  heap : List aiConcurrencyLimiter
  byConfig : AList (fun _ : Nat => Nat)

/-- The initial state of the process: nothing allocated, `byConfig` the empty map. -/
def State.init : State := { heap := [], byConfig := ∅ }

/-- The number of entries of the map, `len(aiConcurrencyLimiters.byConfig)`. -/
def State.size (σ : State) : Nat := σ.byConfig.keys.length

/-- The condition `existing, ok := byConfig[configID]; ok && existing.limit == limit`: the
recorded pointer when the condition holds, `none` when it does not. -/
def lookupExisting (σ : State) (configID : Nat) (limit : Int) : Option Nat :=
  match σ.byConfig.lookup configID with
  | some existing =>
    match σ.heap[existing]? with
    | some l => if l.limit = limit then some existing else none
    | none => none
  | none => none

/-- The function `getLimiterForConfig`: the returned pointer (`none` for `nil`) and the state
after the call; the outer `none` is a panic. -/
def getLimiterForConfig (σ : State) (configID : Nat) (limit : Int) :
    Option (Option Nat × State) :=
  if limit ≤ 0 then some (none, σ)
  else
    match lookupExisting σ configID limit with
    | some existing => some (some existing, σ)
    | none =>
      match newAIConcurrencyLimiter σ.heap limit with
      | none => none
      | some (limiter, heap) =>
        some (some limiter, { heap := heap, byConfig := σ.byConfig.insert configID limiter })

/-- A registry in which identity 7 is recorded with a limiter of capacity 2. -/
def sampleState : State :=
  { heap := [{ limit := 2, ch := { cap := 2, len := 0 } }], byConfig := AList.singleton 7 0 }

/-! ## Calls through the decorator `limitedAIClient` -/

/-- The program points of one call of a method of `limitedAIClient`. The three methods
`GenerateText`, `GenerateImage` and `TestConnection` have the same shape:
`release := c.limiter.acquire(); defer release(); return c.client.Op(...)`. -/
inductive CallPC where
  /-- About to execute the send inside `c.limiter.acquire()`. -/
  | atAcquire
  /-- The slot is held and the delegated `c.client.Op(...)` is running. -/
  | inCall
  /-- The delegated call has returned; the deferred `release()` has not run yet. -/
  | atRelease
  /-- The method has returned. -/
  | done
  deriving DecidableEq, Repr

/-- The call holds a slot of the limiter: it is between its send and its receive. -/
def CallPC.holds : CallPC → Bool
  | .inCall => true
  | .atRelease => true
  | _ => false

/-- The call is inside the delegated capability. -/
def CallPC.isInside : CallPC → Bool
  | .inCall => true
  | _ => false

/-- Concurrent calls through decorators that share one limiter: the limiter object and the
program point of every call. -/
structure Calls where
  limiter : aiConcurrencyLimiter
  pcs : List CallPC
  deriving DecidableEq, Repr

/-- The state in which `n` calls have been launched on limiter `l` and none has run yet. -/
def Calls.start (l : aiConcurrencyLimiter) (n : Nat) : Calls :=
  { limiter := l, pcs := List.replicate n CallPC.atAcquire }

/-- One step of call number `i`; `none` when that call is blocked, has returned or does not
exist. -/
def Calls.step (s : Calls) (i : Nat) : Option Calls :=
  match s.pcs[i]? with
  | some .atAcquire =>
    match s.limiter.acquire with
    | some l => some { limiter := l, pcs := s.pcs.set i .inCall }
    | none => none
  | some .inCall => some { limiter := s.limiter, pcs := s.pcs.set i .atRelease }
  | some .atRelease =>
    match s.limiter.release with
    | some l => some { limiter := l, pcs := s.pcs.set i .done }
    | none => none
  | some .done => none
  | none => none

/-- Runs a schedule: the list of the calls that take the successive steps. -/
def Calls.run (s : Calls) : List Nat → Option Calls
  | [] => some s
  | i :: rest =>
    match s.step i with
    | some s1 => s1.run rest
    | none => none

/-- The number of admitted callers: the elements queued in the limiter's channel. -/
def Calls.admitted (s : Calls) : Nat := s.limiter.ch.len

/-- The number of calls that hold a slot. -/
def Calls.holders (s : Calls) : Nat := s.pcs.countP CallPC.holds

/-- The number of calls inside the delegated capability. -/
def Calls.inside (s : Calls) : Nat := s.pcs.countP CallPC.isInside

/-- The invariant of the single-limiter system for capacity `c`. -/
def Calls.Inv (c : Nat) (s : Calls) : Prop :=
  s.limiter.ch.cap = c ∧ s.limiter.ch.len ≤ c ∧ s.holders = s.limiter.ch.len

/-- The limiter that `newAIConcurrencyLimiter` builds for the limit 2. -/
def sampleLimiter : aiConcurrencyLimiter := { limit := 2, ch := { cap := 2, len := 0 } }

/-- Three calls on `sampleLimiter`: call 0 waits for its deferred release, call 1 is inside the
delegated capability, call 2 has not passed `acquire`. -/
def sampleCalls : Calls :=
  { limiter := { limit := 2, ch := { cap := 2, len := 2 } },
    pcs := [CallPC.atRelease, CallPC.inCall, CallPC.atAcquire] }

/-! ## The whole process: registry lookups interleaved with acquires and releases -/

/-- The events of the process that touch limiters. -/
inductive Event where
  /-- A call `getLimiterForConfig(configID, limit)`. -/
  | lookup (configID : Nat) (limit : Int)
  /-- An invocation through a decorator whose limiter is `p` completes `acquire`. -/
  | acquire (p : Nat)
  /-- An invocation in flight through limiter `p` runs its deferred `release`. -/
  | release (p : Nat)
  deriving DecidableEq, Repr

/-- The process state: the registry state, the record of every limiter that
`getLimiterForConfig` has returned (identity, limit, pointer), and, for every invocation in
flight (between its `acquire` and its `release`), the pointer of the limiter it went through. -/
structure Process where
  σ : State
  returned : List (Nat × Int × Nat)
  inflight : List Nat

/-- The process at start-up. -/
def Process.init : Process := { σ := State.init, returned := [], inflight := [] }

/-- One event; `none` when the event is not enabled (a blocked `acquire`, a `release` without
a holder, an unallocated pointer) or panics. -/
def Process.step (s : Process) : Event → Option Process
  | .lookup configID limit =>
    match getLimiterForConfig s.σ configID limit with
    | some (some p, σ1) =>
      some { σ := σ1, returned := (configID, limit, p) :: s.returned, inflight := s.inflight }
    | some (none, σ1) => some { σ := σ1, returned := s.returned, inflight := s.inflight }
    | none => none
  | .acquire p =>
    match s.σ.heap[p]? with
    | some l =>
      match l.acquire with
      | some l1 =>
        some { σ := { heap := s.σ.heap.set p l1, byConfig := s.σ.byConfig },
               returned := s.returned, inflight := p :: s.inflight }
      | none => none
    | none => none
  | .release p =>
    if p ∈ s.inflight then
      match s.σ.heap[p]? with
      | some l =>
        match l.release with
        | some l1 =>
          some { σ := { heap := s.σ.heap.set p l1, byConfig := s.σ.byConfig },
                 returned := s.returned, inflight := s.inflight.erase p }
        | none => none
      | none => none
    else none

/-- Runs a sequence of events. -/
def Process.run (s : Process) : List Event → Option Process
  | [] => some s
  | e :: rest =>
    match s.step e with
    | some s1 => s1.run rest
    | none => none

/-- The number of invocations in flight through limiters that `getLimiterForConfig` returned
for identity `configID` with limit `limit`. -/
def Process.inflightFor (s : Process) (configID : Nat) (limit : Int) : Nat :=
  s.inflight.countP fun p => decide ((configID, limit, p) ∈ s.returned)

/-- The number of invocations in flight through the limiter at `p`. -/
def Process.inflightAt (s : Process) (p : Nat) : Nat := s.inflight.count p

/-- The limit of identity 7 goes 2, 3, 2 while two invocations admitted under the first
limiter are still in flight; then a third invocation is admitted under the newest limiter. -/
def flipFlop : List Event :=
  [Event.lookup 7 2, Event.acquire 0, Event.acquire 0, Event.lookup 7 3, Event.lookup 7 2,
   Event.acquire 2]

/-- The state that `flipFlop` leads to: three limiter objects, identity 7 recorded with the
newest one, two invocations in flight through limiter 0 and one through limiter 2. -/
def flipFlopEnd : Process :=
  { σ := { heap := [{ limit := 2, ch := { cap := 2, len := 2 } },
                    { limit := 3, ch := { cap := 3, len := 0 } },
                    { limit := 2, ch := { cap := 2, len := 1 } }],
           byConfig := AList.singleton 7 2 },
    returned := [(7, 2, 2), (7, 3, 1), (7, 2, 0)],
    inflight := [2, 0, 0] }

/-- In state `s`, `getLimiterForConfig` has returned at most one limiter instance for identity
`configID` with limit `N`. -/
def Process.oneInstance (s : Process) (configID : Nat) (N : Int) : Prop :=
  ∀ p q, (configID, N, p) ∈ s.returned → (configID, N, q) ∈ s.returned → p = q

/-- The invariant of the runs in which identity `configID` is looked up with no positive limit
other than `N`: every limiter returned for it with limit `N` is the one the registry records,
and the recorded limiter has limit `N`. -/
def Process.StableInv (configID : Nat) (N : Int) (s : Process) : Prop :=
  (∀ p, (configID, N, p) ∈ s.returned → s.σ.byConfig.lookup configID = some p) ∧
  (∀ p, s.σ.byConfig.lookup configID = some p → ∃ l, s.σ.heap[p]? = some l ∧ l.limit = N)

/-- A run in which identity 7 is only ever looked up with the limit 2 (and once with the limit
0, which returns `nil`), while identity 8 is looked up with the limit 3. -/
def stableRun : List Event :=
  [Event.lookup 7 2, Event.acquire 0, Event.lookup 8 3, Event.lookup 7 2, Event.acquire 0,
   Event.acquire 1, Event.lookup 7 0]

/-- The state that `stableRun` leads to: both lookups of identity 7 returned the limiter at
pointer 0, through which two invocations are in flight. -/
def stableEnd : Process :=
  { σ := { heap := [{ limit := 2, ch := { cap := 2, len := 2 } },
                    { limit := 3, ch := { cap := 3, len := 1 } }],
           byConfig := (AList.singleton 7 0).insert 8 1 },
    returned := [(7, 2, 0), (8, 3, 1), (7, 2, 0)],
    inflight := [1, 0, 0] }

/-- The invariant of the process. -/
def Process.Inv (s : Process) : Prop :=
  (∀ p l, s.σ.heap[p]? = some l →
    0 < l.limit ∧ l.ch.cap = l.limit.toNat ∧ l.ch.len ≤ l.ch.cap ∧ s.inflight.count p = l.ch.len) ∧
  (∀ p, s.σ.heap.length ≤ p → s.inflight.count p = 0) ∧
  (∀ configID limit p, (configID, limit, p) ∈ s.returned →
    ∃ l, s.σ.heap[p]? = some l ∧ l.limit = limit)

/-- Every entry of the registry points to an allocated limiter object. -/
def State.Valid (σ : State) : Prop :=
  ∀ configID p, σ.byConfig.lookup configID = some p → p < σ.heap.length

/-! ## The interface `ai.AIClient` and the decorator -/

/-- The values of the interface type `ai.AIClient` that this package meets. The interface is
declared in the package `pkg/ai`; its three methods are taken as given for a client implemented
outside this file: such a client acts on its own world `κ` (the remote service, its logs) and
returns the Go pair of result and error (`none` for `nil`). It may read the limiter objects as
they are while it runs (a test double declared in package `services` can read `len(l.ch)`), but
it cannot change them; a client that ignores them is the special case of a production client.
`ω` stands for the option modifiers `func(*ai.ChatCompletionRequest)`, `ε` for the values of
`error`. The other implementation is `*limitedAIClient`, the struct with the fields `client`
and `limiter`; its only construction site stores a non-nil limiter pointer. -/
inductive AIClient (κ ω ε : Type) where
  | external
      (generateText : String → String → List ω → List aiConcurrencyLimiter → κ →
        (String × Option ε) × κ)
      (generateImage : String → String → Int → List aiConcurrencyLimiter → κ →
        (List String × Option ε) × κ)
      (testConnection : List aiConcurrencyLimiter → κ → Option ε × κ)
  | limitedAIClient (client : AIClient κ ω ε) (limiter : Nat)

/-- The function `wrapAIClientWithLimiter`. -/
def wrapAIClientWithLimiter {κ ω ε : Type} (client : AIClient κ ω ε) (limiter : Option Nat) :
    AIClient κ ω ε :=
  match limiter with
  | none => client
  | some l => AIClient.limitedAIClient client l

/-- The body shared by the three methods of `limitedAIClient`, run without interruption:
`release := c.limiter.acquire(); defer release(); return op`. The state is the limiter objects
and the world of the external clients; `none` means that the method does not return (it is
blocked in `acquire`, or `op` does not return). -/
def guarded {κ α : Type} (limiter : Nat)
    (op : List aiConcurrencyLimiter × κ → Option (α × List aiConcurrencyLimiter × κ))
    (s : List aiConcurrencyLimiter × κ) : Option (α × List aiConcurrencyLimiter × κ) :=
  match s.1[limiter]? with
  | none => none
  | some l =>
    match l.acquire with
    | none => none
    | some l1 =>
      match op (s.1.set limiter l1, s.2) with
      | none => none
      | some (out, heap2, w2) =>
        match heap2[limiter]? with
        | none => none
        | some l2 =>
          match l2.release with
          | none => none
          | some l3 => some (out, heap2.set limiter l3, w2)

/-- The method `GenerateText` of an `ai.AIClient` value, by dynamic dispatch. -/
def AIClient.GenerateText {κ ω ε : Type} :
    AIClient κ ω ε → String → String → List ω → List aiConcurrencyLimiter × κ →
      Option ((String × Option ε) × List aiConcurrencyLimiter × κ)
  | .external generateText _ _, prompt, systemPrompt, options, s =>
    some ((generateText prompt systemPrompt options s.1 s.2).1, s.1,
      (generateText prompt systemPrompt options s.1 s.2).2)
  | .limitedAIClient client limiter, prompt, systemPrompt, options, s =>
    guarded limiter (fun s1 => client.GenerateText prompt systemPrompt options s1) s

/-- The method `GenerateImage` of an `ai.AIClient` value, by dynamic dispatch. -/
def AIClient.GenerateImage {κ ω ε : Type} :
    AIClient κ ω ε → String → String → Int → List aiConcurrencyLimiter × κ →
      Option ((List String × Option ε) × List aiConcurrencyLimiter × κ)
  | .external _ generateImage _, prompt, size, n, s =>
    some ((generateImage prompt size n s.1 s.2).1, s.1, (generateImage prompt size n s.1 s.2).2)
  | .limitedAIClient client limiter, prompt, size, n, s =>
    guarded limiter (fun s1 => client.GenerateImage prompt size n s1) s

/-- The method `TestConnection` of an `ai.AIClient` value, by dynamic dispatch. -/
def AIClient.TestConnection {κ ω ε : Type} :
    AIClient κ ω ε → List aiConcurrencyLimiter × κ →
      Option (Option ε × List aiConcurrencyLimiter × κ)
  | .external _ _ testConnection, s =>
    some ((testConnection s.1 s.2).1, s.1, (testConnection s.1 s.2).2)
  | .limitedAIClient client limiter, s =>
    guarded limiter (fun s1 => client.TestConnection s1) s

/-- The limiter `l` with one more element in its channel. -/
def aiConcurrencyLimiter.taken (l : aiConcurrencyLimiter) : aiConcurrencyLimiter :=
  { limit := l.limit, ch := { cap := l.ch.cap, len := l.ch.len + 1 } }

/-- An external client that records every call it receives in its world (the list of the
calls, oldest first) and fails: text generation with error 5, image generation with error 6,
the connection test with error 7. -/
def recorder : AIClient (List (String × String × String)) Nat Nat :=
  AIClient.external
    (fun prompt systemPrompt _ _ log =>
      (("", some 5), log ++ [("GenerateText", prompt, systemPrompt)]))
    (fun prompt size _ _ log => (([], some 6), log ++ [("GenerateImage", prompt, size)]))
    (fun _ log => (some 7, log ++ [("TestConnection", "", "")]))

/-- The occupancy of the limiter at pointer 0, as a client reads it (`len(l.ch)`). -/
def occupancySeen (heap : List aiConcurrencyLimiter) : Nat :=
  match heap[0]? with
  | some l => l.ch.len
  | none => 0

/-- A test double that fails every operation with, as its error value, the occupancy of the
limiter at pointer 0 that it reads while it runs, and that appends this value to its world. -/
def occupancyProbe : AIClient (List Nat) Nat Nat :=
  AIClient.external
    (fun _ _ _ heap log => (("", some (occupancySeen heap)), log ++ [occupancySeen heap]))
    (fun _ _ _ heap log => (([], some (occupancySeen heap)), log ++ [occupancySeen heap]))
    (fun heap log => (some (occupancySeen heap), log ++ [occupancySeen heap]))

/-! ## Parsing the raw settings -/

/-- The function `parseAIServiceSettings`. The decoder `json.Unmarshal` of the Go standard
library is the parameter `unmarshal`: from the raw text and the struct it is to fill it gives
the filled struct and the error (`none` for `nil`). The result is the Go pair
`(AIServiceSettings, error)`. -/
def parseAIServiceSettings {ε : Type}
    (unmarshal : String → AIServiceSettings → AIServiceSettings × Option ε) (raw : String) :
    AIServiceSettings × Option ε :=
  if raw = "" then ({ ConcurrencyEnabled := none, MaxConcurrency := none }, none)
  else
    match unmarshal raw { ConcurrencyEnabled := none, MaxConcurrency := none } with
    | (_, some err) => ({ ConcurrencyEnabled := none, MaxConcurrency := none }, some err)
    | (settings, none) => (settings, none)

/-! ## Theorems -/

/-- Claim C3: a settings record whose enable flag is present and false resolves to the limit 1,
whatever its max-concurrency field holds (absent, negative, zero or positive). -/
theorem concurrencyLimit_disabled (mc : Option Int) :
    AIServiceSettings.concurrencyLimit
      { ConcurrencyEnabled := some false, MaxConcurrency := mc } = 1 := by
  simp [AIServiceSettings.concurrencyLimit]

/-- Claim C4: a settings record whose enable flag is present and true resolves to the limit 0
(unbounded), whatever its max-concurrency field holds. -/
theorem concurrencyLimit_enabled (mc : Option Int) :
    AIServiceSettings.concurrencyLimit
      { ConcurrencyEnabled := some true, MaxConcurrency := mc } = 0 := by
  simp [AIServiceSettings.concurrencyLimit]

/-- Claim C5: with the enable flag absent and max-concurrency present with value `M`, the limit
is `M` when `M > 0` and `0` when `M ≤ 0`. -/
theorem concurrencyLimit_max (M : Int) :
    (0 < M → AIServiceSettings.concurrencyLimit
      { ConcurrencyEnabled := none, MaxConcurrency := some M } = M) ∧
    (M ≤ 0 → AIServiceSettings.concurrencyLimit
      { ConcurrencyEnabled := none, MaxConcurrency := some M } = 0) := by
  constructor
  · intro h
    have h' : ¬ M ≤ 0 := not_le.mpr h
    simp [AIServiceSettings.concurrencyLimit, h']
  · intro h
    simp [AIServiceSettings.concurrencyLimit, h]

/-- Witness for C5 at `M = 5` (positive branch) and `M = -3` (non-positive branch). -/
theorem concurrencyLimit_max_witness :
    AIServiceSettings.concurrencyLimit
      { ConcurrencyEnabled := none, MaxConcurrency := some 5 } = 5 ∧
    AIServiceSettings.concurrencyLimit
      { ConcurrencyEnabled := none, MaxConcurrency := some (-3) } = 0 :=
  ⟨(concurrencyLimit_max 5).1 (by decide), (concurrencyLimit_max (-3)).2 (by decide)⟩

/-- Claim C6: the settings record with both fields absent resolves to the limit 0. -/
theorem concurrencyLimit_empty :
    AIServiceSettings.concurrencyLimit
      { ConcurrencyEnabled := none, MaxConcurrency := none } = 0 := by
  simp [AIServiceSettings.concurrencyLimit]

/-! ### Registry lemmas -/

theorem newAIConcurrencyLimiter_pos (heap : List aiConcurrencyLimiter) (limit : Int)
    (h : 0 < limit) :
    newAIConcurrencyLimiter heap limit =
      some (heap.length, heap ++ [{ limit := limit, ch := { cap := limit.toNat, len := 0 } }]) := by
  have h' : ¬ limit < 0 := not_lt.mpr (le_of_lt h)
  simp [newAIConcurrencyLimiter, makeChan, h']

theorem getLimiterForConfig_hit (σ : State) (configID : Nat) (limit : Int) (h : 0 < limit)
    (p : Nat) (hp : lookupExisting σ configID limit = some p) :
    getLimiterForConfig σ configID limit = some (some p, σ) := by
  have h' : ¬ limit ≤ 0 := not_le.mpr h
  simp [getLimiterForConfig, h', hp]

theorem getLimiterForConfig_miss (σ : State) (configID : Nat) (limit : Int) (h : 0 < limit)
    (hp : lookupExisting σ configID limit = none) :
    getLimiterForConfig σ configID limit =
      some (some σ.heap.length,
        { heap := σ.heap ++ [{ limit := limit, ch := { cap := limit.toNat, len := 0 } }],
          byConfig := σ.byConfig.insert configID σ.heap.length }) := by
  have h' : ¬ limit ≤ 0 := not_le.mpr h
  simp [getLimiterForConfig, h', hp, newAIConcurrencyLimiter_pos σ.heap limit h]

theorem lookupExisting_heap_congr (heap heap' : List aiConcurrencyLimiter)
    (m : AList (fun _ : Nat => Nat)) (configID : Nat) (limit : Int)
    (hlim : heap'.map (fun l => l.limit) = heap.map (fun l => l.limit)) :
    lookupExisting { heap := heap', byConfig := m } configID limit =
      lookupExisting { heap := heap, byConfig := m } configID limit := by
  unfold lookupExisting
  cases hm : m.lookup configID with
  | none => simp [hm]
  | some e =>
    have hget : (heap'[e]?).map (fun l => l.limit) = (heap[e]?).map (fun l => l.limit) := by
      rw [← List.getElem?_map, ← List.getElem?_map, hlim]
    simp only [hm]
    cases h1 : heap'[e]? with
    | none =>
      cases h2 : heap[e]? with
      | none => rfl
      | some l2 => simp [h1, h2] at hget
    | some l1 =>
      cases h2 : heap[e]? with
      | none => simp [h1, h2] at hget
      | some l2 =>
        have : l1.limit = l2.limit := by simpa [h1, h2] using hget
        simp [this]

theorem lookupExisting_after_miss (σ : State) (configID : Nat) (limit : Int) :
    lookupExisting
      { heap := σ.heap ++ [{ limit := limit, ch := { cap := limit.toNat, len := 0 } }],
        byConfig := σ.byConfig.insert configID σ.heap.length } configID limit =
      some σ.heap.length := by
  simp [lookupExisting, AList.lookup_insert]

/-! ### Registry claims -/

/-- Claim C7: for every state, identity and positive limit, `getLimiterForConfig` returns a
limiter `p`, and a second call with the same identity and limit (no other registry call in
between, while acquires and releases may have changed the channel contents of any limiter)
returns the same reference `p` and leaves the state, hence the registry and the occupancy of
`p`, exactly as it found it. -/
theorem getLimiterForConfig_same_instance (σ : State) (configID : Nat) (limit : Int)
    (h : 0 < limit) :
    ∃ p σ1, getLimiterForConfig σ configID limit = some (some p, σ1) ∧
      getLimiterForConfig σ1 configID limit = some (some p, σ1) ∧
      ∀ heap : List aiConcurrencyLimiter,
        heap.map (fun l => l.limit) = σ1.heap.map (fun l => l.limit) →
        getLimiterForConfig { heap := heap, byConfig := σ1.byConfig } configID limit =
          some (some p, { heap := heap, byConfig := σ1.byConfig }) := by
  have key : ∀ (σ1 : State) (p : Nat), lookupExisting σ1 configID limit = some p →
      getLimiterForConfig σ1 configID limit = some (some p, σ1) ∧
      ∀ heap : List aiConcurrencyLimiter,
        heap.map (fun l => l.limit) = σ1.heap.map (fun l => l.limit) →
        getLimiterForConfig { heap := heap, byConfig := σ1.byConfig } configID limit =
          some (some p, { heap := heap, byConfig := σ1.byConfig }) := by
    intro σ1 p hp
    refine ⟨getLimiterForConfig_hit σ1 configID limit h p hp, ?_⟩
    intro heap hlim
    apply getLimiterForConfig_hit _ configID limit h p
    rw [lookupExisting_heap_congr σ1.heap heap σ1.byConfig configID limit hlim]
    exact hp
  cases hp : lookupExisting σ configID limit with
  | some p =>
    exact ⟨p, σ, getLimiterForConfig_hit σ configID limit h p hp, key σ p hp⟩
  | none =>
    exact ⟨σ.heap.length, _, getLimiterForConfig_miss σ configID limit h hp,
      key _ _ (lookupExisting_after_miss σ configID limit)⟩

/-- Witness for C7: identity 7 with limit 2 on the empty registry. -/
theorem getLimiterForConfig_same_instance_witness :
    ∃ p σ1, getLimiterForConfig State.init 7 2 = some (some p, σ1) ∧
      getLimiterForConfig σ1 7 2 = some (some p, σ1) ∧
      ∀ heap : List aiConcurrencyLimiter,
        heap.map (fun l => l.limit) = σ1.heap.map (fun l => l.limit) →
        getLimiterForConfig { heap := heap, byConfig := σ1.byConfig } 7 2 =
          some (some p, { heap := heap, byConfig := σ1.byConfig }) :=
  getLimiterForConfig_same_instance State.init 7 2 (by decide)

/-- Claim C8: when identity `configID` is recorded with a limiter of capacity `L1` and
`L2 > 0` differs from `L1`, `getLimiterForConfig configID L2` returns a pointer `q` that is not
the recorded one and was not allocated before, the object at `q` is a fresh limiter of capacity
`L2` with an empty channel, and a following call with the same arguments returns `q` again
without changing the state (so every further such call does too). -/
theorem getLimiterForConfig_changed_limit (σ : State) (configID p : Nat)
    (l : aiConcurrencyLimiter) (L1 L2 : Int)
    (hrec : σ.byConfig.lookup configID = some p) (hobj : σ.heap[p]? = some l)
    (hL1 : l.limit = L1) (hpos : 0 < L2) (hne : L2 ≠ L1) :
    ∃ q σ1, getLimiterForConfig σ configID L2 = some (some q, σ1) ∧
      q ≠ p ∧ σ.heap[q]? = none ∧
      σ1.heap[q]? = some { limit := L2, ch := { cap := L2.toNat, len := 0 } } ∧
      getLimiterForConfig σ1 configID L2 = some (some q, σ1) := by
  have hmiss : lookupExisting σ configID L2 = none := by
    have : ¬ l.limit = L2 := by rw [hL1]; exact fun e => hne e.symm
    simp [lookupExisting, hrec, hobj, this]
  have hlt : p < σ.heap.length := by
    rcases List.getElem?_eq_some.mp hobj with ⟨hlt, _⟩
    exact hlt
  refine ⟨σ.heap.length, _, getLimiterForConfig_miss σ configID L2 hpos hmiss, ?_, ?_, ?_, ?_⟩
  · exact Nat.ne_of_gt hlt
  · simp
  · simp
  · exact getLimiterForConfig_hit _ configID L2 hpos _
      (lookupExisting_after_miss σ configID L2)

/-- Witness for C8: identity 7 is recorded with capacity 2 and is looked up with limit 3. -/
theorem getLimiterForConfig_changed_limit_witness :
    ∃ q σ1, getLimiterForConfig sampleState 7 3 = some (some q, σ1) ∧
      q ≠ 0 ∧ sampleState.heap[q]? = none ∧
      σ1.heap[q]? = some { limit := 3, ch := { cap := (3 : Int).toNat, len := 0 } } ∧
      getLimiterForConfig σ1 7 3 = some (some q, σ1) :=
  getLimiterForConfig_changed_limit sampleState 7 0 { limit := 2, ch := { cap := 2, len := 0 } }
    2 3 (by decide) (by decide) rfl (by decide) (by decide)

/-- Claim C9: for every state, identity and limit `≤ 0`, `getLimiterForConfig` returns `nil`
and the state afterwards (the registry map with every entry, the one of `configID` included,
and every limiter object) is the state before. -/
theorem getLimiterForConfig_nonpos (σ : State) (configID : Nat) (limit : Int)
    (h : limit ≤ 0) : getLimiterForConfig σ configID limit = some (none, σ) := by
  simp [getLimiterForConfig, h]

/-- Witness for C9: limit 0 for identity 7, which already has an entry. -/
theorem getLimiterForConfig_nonpos_witness :
    sampleState.byConfig.lookup 7 = some 0 ∧
      getLimiterForConfig sampleState 7 0 = some (none, sampleState) :=
  ⟨by decide, getLimiterForConfig_nonpos sampleState 7 0 (by decide)⟩

theorem size_insert_of_not_mem (m : AList (fun _ : Nat => Nat)) (k v : Nat) (h : k ∉ m) :
    (m.insert k v).keys.length = m.keys.length + 1 := by
  have hk : k ∉ m.keys := fun hk => h (AList.mem_keys.mpr hk)
  rw [AList.keys_insert, List.erase_of_not_mem hk, List.length_cons]

theorem size_insert_of_mem (m : AList (fun _ : Nat => Nat)) (k v : Nat) (h : k ∈ m) :
    (m.insert k v).keys.length = m.keys.length := by
  have hk : k ∈ m.keys := AList.mem_keys.mp h
  have hpos : 0 < m.keys.length := List.length_pos_of_mem hk
  rw [AList.keys_insert, List.length_cons, List.length_erase_of_mem hk]
  omega

theorem lookupExisting_some (σ : State) (configID : Nat) (limit : Int) (p : Nat)
    (h : lookupExisting σ configID limit = some p) :
    ∃ l, σ.heap[p]? = some l ∧ l.limit = limit := by
  unfold lookupExisting at h
  cases hm : σ.byConfig.lookup configID with
  | none => simp [hm] at h
  | some e =>
    cases hl : σ.heap[e]? with
    | none => simp [hm, hl] at h
    | some l =>
      by_cases hlim : l.limit = limit
      · have hp : e = p := by simpa [hm, hl, hlim] using h
        exact ⟨l, hp ▸ hl, hlim⟩
      · simp [hm, hl, hlim] at h

theorem lookupExisting_lookup (σ : State) (configID : Nat) (limit : Int) (p : Nat)
    (h : lookupExisting σ configID limit = some p) : σ.byConfig.lookup configID = some p := by
  unfold lookupExisting at h
  cases hm : σ.byConfig.lookup configID with
  | none => simp [hm] at h
  | some e =>
    cases hl : σ.heap[e]? with
    | none => simp [hm, hl] at h
    | some l =>
      by_cases hlim : l.limit = limit
      · have hp : e = p := by simpa [hm, hl, hlim] using h
        rw [hp]
      · simp [hm, hl, hlim] at h

theorem getLimiterForConfig_cases (σ : State) (configID : Nat) (limit : Int) :
    (limit ≤ 0 ∧ getLimiterForConfig σ configID limit = some (none, σ)) ∨
    (0 < limit ∧ ∃ p l, σ.heap[p]? = some l ∧ l.limit = limit ∧
      getLimiterForConfig σ configID limit = some (some p, σ)) ∨
    (0 < limit ∧ getLimiterForConfig σ configID limit =
      some (some σ.heap.length,
        { heap := σ.heap ++ [{ limit := limit, ch := { cap := limit.toNat, len := 0 } }],
          byConfig := σ.byConfig.insert configID σ.heap.length })) := by
  rcases le_or_lt limit 0 with h | h
  · exact Or.inl ⟨h, by simp [getLimiterForConfig, h]⟩
  · cases hp : lookupExisting σ configID limit with
    | some p =>
      obtain ⟨l, hl, hlim⟩ := lookupExisting_some σ configID limit p hp
      exact Or.inr (Or.inl ⟨h, p, l, hl, hlim, getLimiterForConfig_hit σ configID limit h p hp⟩)
    | none => exact Or.inr (Or.inr ⟨h, getLimiterForConfig_miss σ configID limit h hp⟩)

/-- Counterexample to C10 as stated: identity 7 is recorded with capacity 2; after
`getLimiterForConfig 7 3` (a different, positive limit) the registry has one entry, as before,
not two: the new limiter overwrites the entry of identity 7. -/
theorem getLimiterForConfig_changed_limit_same_size :
    sampleState.byConfig.lookup 7 = some 0 ∧
    (sampleState.heap[0]?).map (fun l => l.limit) = some 2 ∧
    sampleState.size = 1 ∧
    (getLimiterForConfig sampleState 7 3).map (fun r => r.2.size) = some 1 ∧
    (getLimiterForConfig sampleState 7 3).map (fun r => r.2.size) ≠
      some (sampleState.size + 1) := by
  refine ⟨by decide, by decide, by decide, by decide, by decide⟩

/-- Claim C10, amended: `getLimiterForConfig` always returns, and the number of entries of the
registry (a) grows by exactly one when the limit is positive and the identity has no entry,
(b) is unchanged when the identity already has an entry, whatever limit is recorded for it (a
different limit overwrites that entry), and (c) never decreases. -/
theorem getLimiterForConfig_size (σ : State) (configID : Nat) (limit : Int) :
    (0 < limit → configID ∉ σ.byConfig →
      (getLimiterForConfig σ configID limit).map (fun r => r.2.size) = some (σ.size + 1)) ∧
    (configID ∈ σ.byConfig →
      (getLimiterForConfig σ configID limit).map (fun r => r.2.size) = some σ.size) ∧
    (∃ r σ1, getLimiterForConfig σ configID limit = some (r, σ1) ∧ σ.size ≤ σ1.size) := by
  refine ⟨?_, ?_, ?_⟩
  · intro hpos hnew
    have hmiss : lookupExisting σ configID limit = none := by
      have : σ.byConfig.lookup configID = none := AList.lookup_eq_none.mpr hnew
      simp [lookupExisting, this]
    rw [getLimiterForConfig_miss σ configID limit hpos hmiss]
    simp only [Option.map_some', State.size]
    rw [size_insert_of_not_mem σ.byConfig configID σ.heap.length hnew]
  · intro hmem
    rcases getLimiterForConfig_cases σ configID limit with ⟨_, h⟩ | ⟨_, p, l, _, _, h⟩ | ⟨_, h⟩
    · rw [h]; rfl
    · rw [h]; rfl
    · rw [h]
      simp only [Option.map_some', State.size]
      rw [size_insert_of_mem σ.byConfig configID σ.heap.length hmem]
  · rcases getLimiterForConfig_cases σ configID limit with ⟨_, h⟩ | ⟨_, p, l, _, _, h⟩ | ⟨_, h⟩
    · exact ⟨_, _, h, le_refl _⟩
    · exact ⟨_, _, h, le_refl _⟩
    · refine ⟨_, _, h, ?_⟩
      by_cases hmem : configID ∈ σ.byConfig
      · simp only [State.size]
        rw [size_insert_of_mem σ.byConfig configID σ.heap.length hmem]
      · simp only [State.size]
        rw [size_insert_of_not_mem σ.byConfig configID σ.heap.length hmem]
        exact Nat.le_succ _

/-- Witness for the amended C10: identity 8 is new to `sampleState` and identity 7 is
recorded in it. -/
theorem getLimiterForConfig_size_witness :
    (getLimiterForConfig sampleState 8 3).map (fun r => r.2.size) = some (sampleState.size + 1) ∧
    (getLimiterForConfig sampleState 7 3).map (fun r => r.2.size) = some sampleState.size :=
  ⟨(getLimiterForConfig_size sampleState 8 3).1 (by decide) (by decide),
   (getLimiterForConfig_size sampleState 7 3).2.1 (by decide)⟩

/-! ### One limiter, many calls -/

theorem countP_set_of_getElem? {α : Type} (q : α → Bool) (a b : α) :
    ∀ (l : List α) (i : Nat), l[i]? = some a →
      (l.set i b).countP q + (if q a then 1 else 0) = l.countP q + (if q b then 1 else 0)
  | [], i, h => by simp at h
  | x :: xs, 0, h => by
    have hx : x = a := by simpa using h
    subst hx
    simp only [List.set_cons_zero, List.countP_cons]
    omega
  | x :: xs, i + 1, h => by
    have h' : xs[i]? = some a := by simpa using h
    have ih := countP_set_of_getElem? q a b xs i h'
    simp only [List.set_cons_succ, List.countP_cons]
    omega

theorem Calls.Inv_step (c : Nat) (s s1 : Calls) (i : Nat) (hinv : Calls.Inv c s)
    (hstep : s.step i = some s1) : Calls.Inv c s1 := by
  obtain ⟨hcap, hlen, hhold⟩ := hinv
  unfold Calls.holders at hhold
  unfold Calls.step at hstep
  cases hpc : s.pcs[i]? with
  | none => simp [hpc] at hstep
  | some pc =>
    cases pc with
    | atAcquire =>
      simp only [hpc, aiConcurrencyLimiter.acquire, Chan.send] at hstep
      by_cases hfree : s.limiter.ch.len < s.limiter.ch.cap
      · simp only [hfree, if_true] at hstep
        have hs1 := Option.some.inj hstep
        subst hs1
        have hc := countP_set_of_getElem? CallPC.holds CallPC.atAcquire CallPC.inCall s.pcs i hpc
        simp only [CallPC.holds] at hc
        refine ⟨hcap, ?_, ?_⟩
        · show s.limiter.ch.len + 1 ≤ c
          omega
        · show (s.pcs.set i CallPC.inCall).countP CallPC.holds = s.limiter.ch.len + 1
          simp at hc
          omega
      · simp [hfree] at hstep
    | inCall =>
      simp only [hpc] at hstep
      have hs1 := Option.some.inj hstep
      subst hs1
      have hc := countP_set_of_getElem? CallPC.holds CallPC.inCall CallPC.atRelease s.pcs i hpc
      simp only [CallPC.holds] at hc
      refine ⟨hcap, hlen, ?_⟩
      show (s.pcs.set i CallPC.atRelease).countP CallPC.holds = s.limiter.ch.len
      simp at hc
      omega
    | atRelease =>
      simp only [hpc, aiConcurrencyLimiter.release, Chan.recv] at hstep
      by_cases hpos : 0 < s.limiter.ch.len
      · simp only [hpos, if_true] at hstep
        have hs1 := Option.some.inj hstep
        subst hs1
        have hc := countP_set_of_getElem? CallPC.holds CallPC.atRelease CallPC.done s.pcs i hpc
        simp only [CallPC.holds] at hc
        refine ⟨hcap, ?_, ?_⟩
        · show s.limiter.ch.len - 1 ≤ c
          omega
        · show (s.pcs.set i CallPC.done).countP CallPC.holds = s.limiter.ch.len - 1
          simp at hc
          omega
      · simp [hpos] at hstep
    | done => simp [hpc] at hstep

theorem Calls.Inv_run (c : Nat) : ∀ (sched : List Nat) (s s1 : Calls), Calls.Inv c s →
    s.run sched = some s1 → Calls.Inv c s1
  | [], s, s1, hinv, hrun => by
    have : s = s1 := by simpa [Calls.run] using hrun
    exact this ▸ hinv
  | i :: rest, s, s1, hinv, hrun => by
    unfold Calls.run at hrun
    cases hstep : s.step i with
    | none => simp [hstep] at hrun
    | some s2 =>
      simp only [hstep] at hrun
      exact Calls.Inv_run c rest s2 s1 (Calls.Inv_step c s s2 i hinv hstep) hrun

theorem Calls.inside_le_holders (s : Calls) : s.inside ≤ s.holders := by
  unfold Calls.inside Calls.holders
  apply List.countP_mono_left
  intro pc _ h
  cases pc <;> simp_all [CallPC.isInside, CallPC.holds]

theorem Calls.Inv_start (l : aiConcurrencyLimiter) (n : Nat) (hl : l.ch.len = 0) :
    Calls.Inv l.ch.cap (Calls.start l n) := by
  refine ⟨rfl, ?_, ?_⟩
  · show l.ch.len ≤ l.ch.cap
    omega
  · show (List.replicate n CallPC.atAcquire).countP CallPC.holds = l.ch.len
    rw [hl, List.countP_eq_zero]
    intro pc hpc
    rw [List.eq_of_mem_replicate hpc]
    simp [CallPC.holds]

/-- Claim C1: let `l` be the limiter that `newAIConcurrencyLimiter` builds with capacity
`C ≥ 1`. In every state reachable from `n` launched calls by any schedule of steps (a call
passes `acquire` only when the channel has a free slot, and only a call that holds a slot
releases), the number of admitted callers, which is the number of elements in the channel and
the number of calls holding a slot, is at most `C`. In particular, with `C + K` calls,
`K ≥ 1`, at most `C` of them are inside the delegated capability in any reachable state. -/
theorem limiter_occupancy_bounded (heap heap1 : List aiConcurrencyLimiter) (p : Nat)
    (l : aiConcurrencyLimiter) (C : Int) (hC : 1 ≤ C)
    (hnew : newAIConcurrencyLimiter heap C = some (p, heap1)) (hl : heap1[p]? = some l) :
    (∀ (n : Nat) (sched : List Nat) (s : Calls), (Calls.start l n).run sched = some s →
      (s.admitted : Int) ≤ C ∧ s.holders = s.admitted) ∧
    (∀ K : Nat, 1 ≤ K → ∀ (sched : List Nat) (s : Calls),
      (Calls.start l (C.toNat + K)).run sched = some s → (s.inside : Int) ≤ C) := by
  have hpos : 0 < C := by omega
  rw [newAIConcurrencyLimiter_pos heap C hpos] at hnew
  have hp : heap.length = p := by
    have := Option.some.inj hnew
    exact congrArg Prod.fst this
  have hh : heap ++ [{ limit := C, ch := { cap := C.toNat, len := 0 } }] = heap1 := by
    have := Option.some.inj hnew
    exact congrArg Prod.snd this
  subst hp hh
  have hl' : l = { limit := C, ch := { cap := C.toNat, len := 0 } } := by
    simpa using hl.symm
  subst hl'
  have main : ∀ (n : Nat) (sched : List Nat) (s : Calls),
      (Calls.start { limit := C, ch := { cap := C.toNat, len := 0 } } n).run sched = some s →
      (s.admitted : Int) ≤ C ∧ s.holders = s.admitted := by
    intro n sched s hrun
    have hinv := Calls.Inv_run _ sched _ s
      (Calls.Inv_start { limit := C, ch := { cap := C.toNat, len := 0 } } n rfl) hrun
    obtain ⟨_, hlen, hhold⟩ := hinv
    refine ⟨?_, hhold⟩
    show (s.limiter.ch.len : Int) ≤ C
    have : (s.limiter.ch.len : Int) ≤ (C.toNat : Int) := by exact_mod_cast hlen
    rw [Int.toNat_of_nonneg (le_of_lt hpos)] at this
    exact this
  refine ⟨main, ?_⟩
  intro K _ sched s hrun
  obtain ⟨hadm, hhold⟩ := main _ sched s hrun
  have h1 := Calls.inside_le_holders s
  have h2 : (s.inside : Int) ≤ (s.admitted : Int) := by
    rw [hhold] at h1
    exact_mod_cast h1
  exact le_trans h2 hadm

/-- Witness for C1: the limiter of capacity 2 built on the empty heap and three calls; after
calls 0 and 1 have passed `acquire` and call 0 has come back from the delegated capability,
two callers are admitted and one is inside. -/
theorem limiter_occupancy_bounded_witness :
    (Calls.start sampleLimiter 3).run [0, 1, 0] = some sampleCalls ∧
    ((sampleCalls.admitted : Int) ≤ 2 ∧ sampleCalls.holders = sampleCalls.admitted) ∧
    (sampleCalls.inside : Int) ≤ 2 :=
  ⟨by decide,
   (limiter_occupancy_bounded [] [sampleLimiter] 0 sampleLimiter 2 (by decide) (by decide)
      (by decide)).1 3 [0, 1, 0] sampleCalls (by decide),
   (limiter_occupancy_bounded [] [sampleLimiter] 0 sampleLimiter 2 (by decide) (by decide)
      (by decide)).2 1 (by decide) [0, 1, 0] sampleCalls (by decide)⟩

/-! ### The process -/

theorem acquire_some (l l1 : aiConcurrencyLimiter) (h : l.acquire = some l1) :
    l1.limit = l.limit ∧ l1.ch.cap = l.ch.cap ∧ l1.ch.len = l.ch.len + 1 ∧
      l.ch.len < l.ch.cap := by
  unfold aiConcurrencyLimiter.acquire Chan.send at h
  by_cases hfree : l.ch.len < l.ch.cap
  · simp only [hfree, if_true] at h
    have := Option.some.inj h
    subst this
    exact ⟨rfl, rfl, rfl, hfree⟩
  · simp [hfree] at h

theorem release_some (l l1 : aiConcurrencyLimiter) (h : l.release = some l1) :
    l1.limit = l.limit ∧ l1.ch.cap = l.ch.cap ∧ l1.ch.len + 1 = l.ch.len := by
  unfold aiConcurrencyLimiter.release Chan.recv at h
  by_cases hpos : 0 < l.ch.len
  · simp only [hpos, if_true] at h
    have := Option.some.inj h
    subst this
    refine ⟨rfl, rfl, ?_⟩
    show l.ch.len - 1 + 1 = l.ch.len
    omega
  · simp [hpos] at h

theorem Process.Inv_update (s : Process) (p : Nat) (l l1 : aiConcurrencyLimiter)
    (inflight1 : List Nat) (hinv : s.Inv) (hp : s.σ.heap[p]? = some l)
    (hlim : l1.limit = l.limit) (hcap : l1.ch.cap = l.ch.cap) (hlen : l1.ch.len ≤ l1.ch.cap)
    (hcp : inflight1.count p = l1.ch.len)
    (hcq : ∀ q, q ≠ p → inflight1.count q = s.inflight.count q) :
    Process.Inv { σ := { heap := s.σ.heap.set p l1, byConfig := s.σ.byConfig },
                  returned := s.returned, inflight := inflight1 } := by
  obtain ⟨h1, h2, h3⟩ := hinv
  have hplt : p < s.σ.heap.length := (List.getElem?_eq_some.mp hp).1
  obtain ⟨hl0, hl1, _, _⟩ := h1 p l hp
  refine ⟨?_, ?_, ?_⟩
  · intro q lq hq
    by_cases hqp : q = p
    · subst hqp
      have hq' : (s.σ.heap.set q l1)[q]? = some lq := hq
      rw [List.getElem?_set_self hplt] at hq'
      have : l1 = lq := Option.some.inj hq'
      subst this
      exact ⟨hlim ▸ hl0, by rw [hcap, hlim]; exact hl1, hlen, hcp⟩
    · have hq' : (s.σ.heap.set p l1)[q]? = some lq := hq
      rw [List.getElem?_set_ne (Ne.symm hqp)] at hq'
      obtain ⟨a, b, c, d⟩ := h1 q lq hq'
      exact ⟨a, b, c, (hcq q hqp).trans d⟩
  · intro q hq
    have hq' : s.σ.heap.length ≤ q := by simpa using hq
    have hqp : q ≠ p := by omega
    exact (hcq q hqp).trans (h2 q hq')
  · intro configID limit q hmem
    obtain ⟨lq, hlq, hlimq⟩ := h3 configID limit q hmem
    by_cases hqp : q = p
    · subst hqp
      refine ⟨l1, ?_, ?_⟩
      · show (s.σ.heap.set q l1)[q]? = some l1
        exact List.getElem?_set_self hplt
      · have : lq = l := Option.some.inj (hlq.symm.trans hp)
        rw [hlim, ← this]
        exact hlimq
    · refine ⟨lq, ?_, hlimq⟩
      show (s.σ.heap.set p l1)[q]? = some lq
      rw [List.getElem?_set_ne (Ne.symm hqp)]
      exact hlq

theorem Process.Inv_init : Process.init.Inv := by
  refine ⟨?_, ?_, ?_⟩
  · intro p l h
    simp [Process.init, State.init] at h
  · intro p _
    simp [Process.init]
  · intro configID limit p h
    simp [Process.init] at h

theorem Process.Inv_lookup (s s1 : Process) (configID : Nat) (limit : Int) (hinv : s.Inv)
    (hstep : s.step (Event.lookup configID limit) = some s1) : s1.Inv := by
  obtain ⟨h1, h2, h3⟩ := hinv
  simp only [Process.step] at hstep
  rcases getLimiterForConfig_cases s.σ configID limit with
    ⟨_, h⟩ | ⟨_, p, l, hl, hlim, h⟩ | ⟨hpos, h⟩
  · rw [h] at hstep
    have := Option.some.inj hstep
    subst this
    exact ⟨h1, h2, h3⟩
  · rw [h] at hstep
    have := Option.some.inj hstep
    subst this
    refine ⟨h1, h2, ?_⟩
    intro c n q hmem
    rcases List.mem_cons.mp hmem with heq | hold
    · obtain ⟨_, hn, hq⟩ : c = configID ∧ n = limit ∧ q = p := by simpa using heq
      subst hn hq
      exact ⟨l, hl, hlim⟩
    · exact h3 c n q hold
  · rw [h] at hstep
    have := Option.some.inj hstep
    subst this
    refine ⟨?_, ?_, ?_⟩
    · intro q lq hq
      have hq' : (s.σ.heap ++
          [{ limit := limit, ch := { cap := limit.toNat, len := 0 } }])[q]? = some lq := hq
      rcases Nat.lt_trichotomy q s.σ.heap.length with hlt | heq | hgt
      · rw [List.getElem?_append_left hlt] at hq'
        exact h1 q lq hq'
      · subst heq
        rw [List.getElem?_concat_length] at hq'
        have := Option.some.inj hq'
        subst this
        exact ⟨hpos, rfl, Nat.zero_le _, h2 _ (le_refl _)⟩
      · have : (s.σ.heap ++
            [{ limit := limit, ch := { cap := limit.toNat, len := 0 } }])[q]? = none := by
          apply List.getElem?_eq_none
          simp
          omega
        rw [this] at hq'
        exact absurd hq' (by simp)
    · intro q hq
      have hq' : s.σ.heap.length + 1 ≤ q := by simpa using hq
      exact h2 q (by omega)
    · intro c n q hmem
      rcases List.mem_cons.mp hmem with heq | hold
      · obtain ⟨_, hn, hq⟩ : c = configID ∧ n = limit ∧ q = s.σ.heap.length := by
          simpa using heq
        subst hn hq
        exact ⟨_, List.getElem?_concat_length _ _, rfl⟩
      · obtain ⟨lq, hlq, hlimq⟩ := h3 c n q hold
        refine ⟨lq, ?_, hlimq⟩
        have hlt : q < s.σ.heap.length := (List.getElem?_eq_some.mp hlq).1
        show (s.σ.heap ++
          [{ limit := limit, ch := { cap := limit.toNat, len := 0 } }])[q]? = some lq
        rw [List.getElem?_append_left hlt]
        exact hlq

theorem Process.procInv_step (s s1 : Process) (e : Event) (hinv : s.Inv)
    (hstep : s.step e = some s1) : s1.Inv := by
  cases e with
  | lookup configID limit => exact Process.Inv_lookup s s1 configID limit hinv hstep
  | acquire p =>
    simp only [Process.step] at hstep
    cases hl : s.σ.heap[p]? with
    | none => simp [hl] at hstep
    | some l =>
      cases ha : l.acquire with
      | none => simp [hl, ha] at hstep
      | some l1 =>
        simp only [hl, ha] at hstep
        have := Option.some.inj hstep
        subst this
        obtain ⟨a, b, c, d⟩ := acquire_some l l1 ha
        obtain ⟨_, _, _, hcount⟩ := hinv.1 p l hl
        apply Process.Inv_update s p l l1 (p :: s.inflight) hinv hl a b
        · omega
        · rw [List.count_cons_self, hcount, c]
        · intro q hq
          exact List.count_cons_of_ne hq _
  | release p =>
    simp only [Process.step] at hstep
    by_cases hmem : p ∈ s.inflight
    · simp only [hmem, if_true] at hstep
      cases hl : s.σ.heap[p]? with
      | none => simp [hl] at hstep
      | some l =>
        cases hr : l.release with
        | none => simp [hl, hr] at hstep
        | some l1 =>
          simp only [hl, hr] at hstep
          have := Option.some.inj hstep
          subst this
          obtain ⟨a, b, c⟩ := release_some l l1 hr
          obtain ⟨_, _, hle, hcount⟩ := hinv.1 p l hl
          apply Process.Inv_update s p l l1 (s.inflight.erase p) hinv hl a b
          · omega
          · rw [List.count_erase_self, hcount]
            omega
          · intro q hq
            exact List.count_erase_of_ne hq _
    · simp [hmem] at hstep

theorem Process.procInv_run : ∀ (events : List Event) (s s1 : Process), s.Inv →
    s.run events = some s1 → s1.Inv
  | [], s, s1, hinv, hrun => by
    have : s = s1 := by simpa [Process.run] using hrun
    exact this ▸ hinv
  | e :: rest, s, s1, hinv, hrun => by
    unfold Process.run at hrun
    cases hstep : s.step e with
    | none => simp [hstep] at hrun
    | some s2 =>
      simp only [hstep] at hrun
      exact Process.procInv_run rest s2 s1 (Process.procInv_step s s2 e hinv hstep) hrun

/-- Counterexample to C2 as stated: `flipFlop` is a run of the process, and in the state it
reaches three invocations are in flight through limiters that `getLimiterForConfig` returned
for identity 7 with limit 2. Two went through the first limiter (pointer 0), which was replaced
in the registry when the limit changed to 3; one went through the limiter (pointer 2) created
when the limit changed back to 2. -/
theorem inflightFor_exceeds_limit :
    Process.init.run flipFlop = some flipFlopEnd ∧
    flipFlopEnd.returned = [(7, 2, 2), (7, 3, 1), (7, 2, 0)] ∧
    flipFlopEnd.inflight = [2, 0, 0] ∧
    flipFlopEnd.inflightFor 7 2 = 3 ∧
    ¬ ((flipFlopEnd.inflightFor 7 2 : Int) ≤ 2) := by
  refine ⟨rfl, rfl, rfl, by decide, by decide⟩

theorem Process.inflightAt_le_of_returned (events : List Event) (s : Process)
    (hrun : Process.init.run events = some s) (configID : Nat) (limit : Int) (p : Nat)
    (hret : (configID, limit, p) ∈ s.returned) :
    0 < limit ∧ (s.inflightAt p : Int) ≤ limit := by
  obtain ⟨h1, _, h3⟩ := Process.procInv_run events Process.init s Process.Inv_init hrun
  obtain ⟨l, hl, hlim⟩ := h3 configID limit p hret
  obtain ⟨hpos, hcap, hlen, hcount⟩ := h1 p l hl
  rw [hlim] at hpos hcap
  refine ⟨hpos, ?_⟩
  have hle : s.inflightAt p ≤ limit.toNat := by
    unfold Process.inflightAt
    omega
  have : (s.inflightAt p : Int) ≤ (limit.toNat : Int) := by exact_mod_cast hle
  rw [Int.toNat_of_nonneg (le_of_lt hpos)] at this
  exact this

theorem lookupExisting_of_recorded (σ : State) (configID : Nat) (limit : Int) (p : Nat)
    (l : aiConcurrencyLimiter) (hrec : σ.byConfig.lookup configID = some p)
    (hl : σ.heap[p]? = some l) (hlim : l.limit = limit) :
    lookupExisting σ configID limit = some p := by
  simp [lookupExisting, hrec, hl, hlim]

theorem Process.StableInv_init (configID : Nat) (N : Int) :
    Process.StableInv configID N Process.init := by
  refine ⟨?_, ?_⟩
  · intro p h
    simp [Process.init] at h
  · intro p h
    simp [Process.init, State.init] at h

theorem Process.StableInv_set (configID : Nat) (N : Int) (s : Process) (p : Nat)
    (l l1 : aiConcurrencyLimiter) (inflight1 : List Nat)
    (hinv : Process.StableInv configID N s) (hp : s.σ.heap[p]? = some l)
    (hlim : l1.limit = l.limit) :
    Process.StableInv configID N
      { σ := { heap := s.σ.heap.set p l1, byConfig := s.σ.byConfig },
        returned := s.returned, inflight := inflight1 } := by
  obtain ⟨h1, h2⟩ := hinv
  have hplt : p < s.σ.heap.length := (List.getElem?_eq_some.mp hp).1
  refine ⟨h1, ?_⟩
  intro q hq
  obtain ⟨lq, hlq, hlimq⟩ := h2 q hq
  by_cases hqp : q = p
  · subst hqp
    refine ⟨l1, ?_, ?_⟩
    · show (s.σ.heap.set q l1)[q]? = some l1
      exact List.getElem?_set_self hplt
    · have : lq = l := Option.some.inj (hlq.symm.trans hp)
      rw [hlim, ← this]
      exact hlimq
  · refine ⟨lq, ?_, hlimq⟩
    show (s.σ.heap.set p l1)[q]? = some lq
    rw [List.getElem?_set_ne (Ne.symm hqp)]
    exact hlq

theorem Process.StableInv_lookup (configID : Nat) (N : Int) (s s1 : Process) (id : Nat)
    (M : Int) (hinv : Process.StableInv configID N s)
    (hstable : id = configID → 0 < M → M = N)
    (hstep : s.step (Event.lookup id M) = some s1) : Process.StableInv configID N s1 := by
  obtain ⟨h1, h2⟩ := hinv
  simp only [Process.step] at hstep
  rcases le_or_lt M 0 with hM | hM
  · have hnil : getLimiterForConfig s.σ id M = some (none, s.σ) := by
      simp [getLimiterForConfig, hM]
    rw [hnil] at hstep
    have := Option.some.inj hstep
    subst this
    exact ⟨h1, h2⟩
  · cases hp : lookupExisting s.σ id M with
    | some p =>
      rw [getLimiterForConfig_hit s.σ id M hM p hp] at hstep
      have := Option.some.inj hstep
      subst this
      refine ⟨?_, h2⟩
      intro q hmem
      rcases List.mem_cons.mp hmem with heq | hold
      · obtain ⟨hid, _, hq⟩ : configID = id ∧ N = M ∧ q = p := by simpa using heq
        subst hid hq
        exact lookupExisting_lookup s.σ configID M q hp
      · exact h1 q hold
    | none =>
      rw [getLimiterForConfig_miss s.σ id M hM hp] at hstep
      have := Option.some.inj hstep
      subst this
      by_cases hid : id = configID
      · subst hid
        have hMN : M = N := hstable rfl hM
        subst hMN
        refine ⟨?_, ?_⟩
        · intro q hmem
          rcases List.mem_cons.mp hmem with heq | hold
          · have hq : q = s.σ.heap.length := by simpa using heq
            subst hq
            exact AList.lookup_insert _
          · have hrec := h1 q hold
            obtain ⟨l, hl, hlim⟩ := h2 q hrec
            rw [lookupExisting_of_recorded s.σ id M q l hrec hl hlim] at hp
            exact absurd hp (by simp)
        · intro q hq
          have hq' : (s.σ.byConfig.insert id s.σ.heap.length).lookup id = some q := hq
          rw [AList.lookup_insert] at hq'
          have hq2 : s.σ.heap.length = q := Option.some.inj hq'
          subst hq2
          exact ⟨_, List.getElem?_concat_length _ _, rfl⟩
      · have hne : configID ≠ id := fun h => hid h.symm
        refine ⟨?_, ?_⟩
        · intro q hmem
          rcases List.mem_cons.mp hmem with heq | hold
          · have : configID = id := by
              have h3 : configID = id ∧ N = M ∧ q = s.σ.heap.length := by simpa using heq
              exact h3.1
            exact absurd this hne
          · show (s.σ.byConfig.insert id s.σ.heap.length).lookup configID = some q
            rw [AList.lookup_insert_ne hne]
            exact h1 q hold
        · intro q hq
          have hq' : (s.σ.byConfig.insert id s.σ.heap.length).lookup configID = some q := hq
          rw [AList.lookup_insert_ne hne] at hq'
          obtain ⟨l, hl, hlim⟩ := h2 q hq'
          refine ⟨l, ?_, hlim⟩
          have hlt : q < s.σ.heap.length := (List.getElem?_eq_some.mp hl).1
          show (s.σ.heap ++
            [({ limit := M, ch := { cap := M.toNat, len := 0 } } :
              aiConcurrencyLimiter)])[q]? = some l
          rw [List.getElem?_append_left hlt]
          exact hl

theorem Process.StableInv_step (configID : Nat) (N : Int) (s s1 : Process) (e : Event)
    (hinv : Process.StableInv configID N s)
    (hstable : ∀ M, 0 < M → e = Event.lookup configID M → M = N)
    (hstep : s.step e = some s1) : Process.StableInv configID N s1 := by
  cases e with
  | lookup id M =>
    apply Process.StableInv_lookup configID N s s1 id M hinv _ hstep
    intro hid hM
    exact hstable M hM (by rw [hid])
  | acquire p =>
    simp only [Process.step] at hstep
    cases hl : s.σ.heap[p]? with
    | none => simp [hl] at hstep
    | some l =>
      cases ha : l.acquire with
      | none => simp [hl, ha] at hstep
      | some l1 =>
        simp only [hl, ha] at hstep
        have := Option.some.inj hstep
        subst this
        exact Process.StableInv_set configID N s p l l1 _ hinv hl (acquire_some l l1 ha).1
  | release p =>
    simp only [Process.step] at hstep
    by_cases hmem : p ∈ s.inflight
    · simp only [hmem, if_true] at hstep
      cases hl : s.σ.heap[p]? with
      | none => simp [hl] at hstep
      | some l =>
        cases hr : l.release with
        | none => simp [hl, hr] at hstep
        | some l1 =>
          simp only [hl, hr] at hstep
          have := Option.some.inj hstep
          subst this
          exact Process.StableInv_set configID N s p l l1 _ hinv hl (release_some l l1 hr).1
    · simp [hmem] at hstep

theorem Process.StableInv_run (configID : Nat) (N : Int) :
    ∀ (events : List Event) (s s1 : Process), Process.StableInv configID N s →
      (∀ M, 0 < M → Event.lookup configID M ∈ events → M = N) →
      s.run events = some s1 → Process.StableInv configID N s1
  | [], s, s1, hinv, _, hrun => by
    have : s = s1 := by simpa [Process.run] using hrun
    exact this ▸ hinv
  | e :: rest, s, s1, hinv, hstable, hrun => by
    unfold Process.run at hrun
    cases hstep : s.step e with
    | none => simp [hstep] at hrun
    | some s2 =>
      simp only [hstep] at hrun
      have h2 : Process.StableInv configID N s2 :=
        Process.StableInv_step configID N s s2 e hinv
          (fun M hM he => hstable M hM (by rw [he]; exact List.mem_cons_self _ _)) hstep
      exact Process.StableInv_run configID N rest s2 s1 h2
        (fun M hM hmem => hstable M hM (List.mem_cons_of_mem _ hmem)) hrun

theorem Process.inflightFor_le_of_oneInstance (s : Process) (configID : Nat) (N : Int)
    (n : Nat) (hone : s.oneInstance configID N)
    (hbound : ∀ p, (configID, N, p) ∈ s.returned → s.inflightAt p ≤ n) :
    s.inflightFor configID N ≤ n := by
  unfold Process.inflightFor
  by_cases hex : ∃ p, (configID, N, p) ∈ s.returned
  · obtain ⟨p0, hp0⟩ := hex
    have hle : s.inflight.countP (fun p => decide ((configID, N, p) ∈ s.returned)) ≤
        s.inflight.countP (fun p => p == p0) := by
      apply List.countP_mono_left
      intro q _ hq
      have hq' : (configID, N, q) ∈ s.returned := by simpa using hq
      have : q = p0 := hone q p0 hq' hp0
      simp [this]
    have hb := hbound p0 hp0
    unfold Process.inflightAt at hb
    rw [List.count] at hb
    exact le_trans hle hb
  · have hz : s.inflight.countP (fun p => decide ((configID, N, p) ∈ s.returned)) = 0 := by
      rw [List.countP_eq_zero]
      intro q _ hq
      have hq' : (configID, N, q) ∈ s.returned := by simpa using hq
      exact hex ⟨q, hq'⟩
    rw [hz]
    exact Nat.zero_le _

/-- Claim C2, amended: for every configuration identity and every positive limit `N`, in every
state reachable from start-up by interleaving `getLimiterForConfig` calls (any identities and
limits), acquires and releases: (a) every limiter instance that `getLimiterForConfig` returned
for that identity with limit `N` has at most `N` invocations in flight through it; (b) when
`getLimiterForConfig` has returned only one limiter instance for that identity with limit `N`,
the number of invocations in flight through limiters returned for that identity with limit `N`
is at most `N`; (c) this is the case whenever the run never looks the identity up with a
positive limit other than `N`. -/
theorem inflightFor_le_limit_one_instance (events : List Event) (s : Process)
    (hrun : Process.init.run events = some s) (configID : Nat) (N : Int) (hN : 0 < N) :
    (∀ p, (configID, N, p) ∈ s.returned → (s.inflightAt p : Int) ≤ N) ∧
    (s.oneInstance configID N → (s.inflightFor configID N : Int) ≤ N) ∧
    ((∀ M, 0 < M → Event.lookup configID M ∈ events → M = N) →
      s.oneInstance configID N ∧ (s.inflightFor configID N : Int) ≤ N) := by
  have ha : ∀ p, (configID, N, p) ∈ s.returned → (s.inflightAt p : Int) ≤ N :=
    fun p hp => (Process.inflightAt_le_of_returned events s hrun configID N p hp).2
  have hb : s.oneInstance configID N → (s.inflightFor configID N : Int) ≤ N := by
    intro hone
    have hnat : s.inflightFor configID N ≤ N.toNat := by
      apply Process.inflightFor_le_of_oneInstance s configID N N.toNat hone
      intro p hp
      have := ha p hp
      omega
    have : (s.inflightFor configID N : Int) ≤ (N.toNat : Int) := by exact_mod_cast hnat
    rw [Int.toNat_of_nonneg (le_of_lt hN)] at this
    exact this
  refine ⟨ha, hb, ?_⟩
  intro hstable
  obtain ⟨h1, _⟩ := Process.StableInv_run configID N events Process.init s
    (Process.StableInv_init configID N) hstable hrun
  have hone : s.oneInstance configID N := by
    intro p q hp hq
    have := (h1 p hp).symm.trans (h1 q hq)
    exact Option.some.inj this
  exact ⟨hone, hb hone⟩

/-- Witness for the amended C2: (a) the first limiter returned for identity 7 in `flipFlop`;
(b) the single limiter returned for identity 7 with limit 3 in `flipFlop`; (c) the run
`stableRun`, where identity 7 keeps the limit 2 and the bound 2 is reached. -/
theorem inflightFor_le_limit_one_instance_witness :
    Process.init.run flipFlop = some flipFlopEnd ∧
    Process.init.run stableRun = some stableEnd ∧
    (flipFlopEnd.inflightAt 0 : Int) ≤ 2 ∧
    (flipFlopEnd.inflightFor 7 3 : Int) ≤ 3 ∧
    (stableEnd.oneInstance 7 2 ∧ (stableEnd.inflightFor 7 2 : Int) ≤ 2) ∧
    stableEnd.inflightFor 7 2 = 2 :=
  ⟨rfl, rfl,
   (inflightFor_le_limit_one_instance flipFlop flipFlopEnd rfl 7 2 (by decide)).1 0
     (by decide),
   (inflightFor_le_limit_one_instance flipFlop flipFlopEnd rfl 7 3 (by decide)).2.1
     (fun p q hp hq => by
       simp [flipFlopEnd] at hp hq
       omega),
   (inflightFor_le_limit_one_instance stableRun stableEnd rfl 7 2 (by decide)).2.2
     (fun M hM hmem => by
       simp [stableRun] at hmem
       omega),
   by decide⟩

/-! ### Parsing and the range of the limit -/

/-- Claim C15: whatever the JSON decoder does, `parseAIServiceSettings` applied to the empty
string returns the settings record with both fields absent and no error, and the limit
resolved from that record is 0. -/
theorem parseAIServiceSettings_empty {ε : Type}
    (unmarshal : String → AIServiceSettings → AIServiceSettings × Option ε) :
    parseAIServiceSettings unmarshal "" =
      ({ ConcurrencyEnabled := none, MaxConcurrency := none }, none) ∧
    (parseAIServiceSettings unmarshal "").1.concurrencyLimit = 0 := by
  constructor
  · simp [parseAIServiceSettings]
  · simp [parseAIServiceSettings, AIServiceSettings.concurrencyLimit]

/-- Claim C16: for every settings record (flag absent or present, maximum absent or any
integer, negative ones included) `concurrencyLimit` returns a non-negative integer. -/
theorem concurrencyLimit_nonneg (s : AIServiceSettings) : 0 ≤ s.concurrencyLimit := by
  obtain ⟨en, mc⟩ := s
  cases en with
  | some b => cases b <;> simp [AIServiceSettings.concurrencyLimit]
  | none =>
    cases mc with
    | none => simp [AIServiceSettings.concurrencyLimit]
    | some m =>
      by_cases hm : m ≤ 0
      · simp [AIServiceSettings.concurrencyLimit, hm]
      · simp only [AIServiceSettings.concurrencyLimit, hm]
        simp
        omega

/-! ### Frame and invariant of the registry -/

/-- Claim C17: for every state, identities `configID` and `other ≠ configID`, and every limit,
`getLimiterForConfig configID limit` returns and leaves the entry recorded for `other` as it
was (absent, or present with the same pointer), and every limiter object allocated before is
unchanged. -/
theorem getLimiterForConfig_frame (σ : State) (configID other : Nat) (limit : Int)
    (hne : other ≠ configID) :
    ∃ r σ1, getLimiterForConfig σ configID limit = some (r, σ1) ∧
      σ1.byConfig.lookup other = σ.byConfig.lookup other ∧
      ∀ (p : Nat) (l : aiConcurrencyLimiter), σ.heap[p]? = some l → σ1.heap[p]? = some l := by
  rcases getLimiterForConfig_cases σ configID limit with
    ⟨_, h⟩ | ⟨_, p, l, _, _, h⟩ | ⟨_, h⟩
  · exact ⟨_, _, h, rfl, fun _ _ hl => hl⟩
  · exact ⟨_, _, h, rfl, fun _ _ hl => hl⟩
  · refine ⟨_, _, h, ?_, ?_⟩
    · exact AList.lookup_insert_ne hne
    · intro q lq hq
      have hlt : q < σ.heap.length := (List.getElem?_eq_some.mp hq).1
      show (σ.heap ++ [{ limit := limit, ch := { cap := limit.toNat, len := 0 } }])[q]? = some lq
      rw [List.getElem?_append_left hlt]
      exact hq

/-- Witness for C17: identity 8 is looked up with limit 3 while identity 7 is recorded. -/
theorem getLimiterForConfig_frame_witness :
    ∃ r σ1, getLimiterForConfig sampleState 8 3 = some (r, σ1) ∧
      σ1.byConfig.lookup 7 = sampleState.byConfig.lookup 7 ∧
      ∀ (p : Nat) (l : aiConcurrencyLimiter),
        sampleState.heap[p]? = some l → σ1.heap[p]? = some l :=
  getLimiterForConfig_frame sampleState 8 7 3 (by decide)

theorem Process.valid_step (s s1 : Process) (e : Event) (hv : s.σ.Valid)
    (hstep : s.step e = some s1) : s1.σ.Valid := by
  cases e with
  | lookup configID limit =>
    simp only [Process.step] at hstep
    rcases getLimiterForConfig_cases s.σ configID limit with
      ⟨_, h⟩ | ⟨_, p, l, _, _, h⟩ | ⟨_, h⟩
    · rw [h] at hstep
      have := Option.some.inj hstep
      subst this
      exact hv
    · rw [h] at hstep
      have := Option.some.inj hstep
      subst this
      exact hv
    · rw [h] at hstep
      have := Option.some.inj hstep
      subst this
      intro k q hq
      have hq' : (s.σ.byConfig.insert configID s.σ.heap.length).lookup k = some q := hq
      show q < (s.σ.heap ++
        [({ limit := limit, ch := { cap := limit.toNat, len := 0 } } :
          aiConcurrencyLimiter)]).length
      rw [List.length_append, List.length_singleton]
      by_cases hk : k = configID
      · subst hk
        rw [AList.lookup_insert] at hq'
        have := Option.some.inj hq'
        omega
      · rw [AList.lookup_insert_ne hk] at hq'
        have := hv k q hq'
        omega
  | acquire p =>
    simp only [Process.step] at hstep
    cases hl : s.σ.heap[p]? with
    | none => simp [hl] at hstep
    | some l =>
      cases ha : l.acquire with
      | none => simp [hl, ha] at hstep
      | some l1 =>
        simp only [hl, ha] at hstep
        have := Option.some.inj hstep
        subst this
        intro k q hq
        show q < (s.σ.heap.set p l1).length
        rw [List.length_set]
        exact hv k q hq
  | release p =>
    simp only [Process.step] at hstep
    by_cases hmem : p ∈ s.inflight
    · simp only [hmem, if_true] at hstep
      cases hl : s.σ.heap[p]? with
      | none => simp [hl] at hstep
      | some l =>
        cases hr : l.release with
        | none => simp [hl, hr] at hstep
        | some l1 =>
          simp only [hl, hr] at hstep
          have := Option.some.inj hstep
          subst this
          intro k q hq
          show q < (s.σ.heap.set p l1).length
          rw [List.length_set]
          exact hv k q hq
    · simp [hmem] at hstep

theorem Process.valid_run : ∀ (events : List Event) (s s1 : Process), s.σ.Valid →
    s.run events = some s1 → s1.σ.Valid
  | [], s, s1, hv, hrun => by
    have : s = s1 := by simpa [Process.run] using hrun
    exact this ▸ hv
  | e :: rest, s, s1, hv, hrun => by
    unfold Process.run at hrun
    cases hstep : s.step e with
    | none => simp [hstep] at hrun
    | some s2 =>
      simp only [hstep] at hrun
      exact Process.valid_run rest s2 s1 (Process.valid_step s s2 e hv hstep) hrun

theorem State.valid_init : State.init.Valid := by
  intro k q hq
  simp [State.init] at hq

/-- Claim C18: in every state reachable from the empty registry by calls to
`getLimiterForConfig` with arbitrary identities and limits (acquires and releases may be
interleaved), (a) every limiter stored in the registry is allocated, has `limit ≥ 1` and a
channel of that capacity, (b) `getLimiterForConfig` does not panic, so `make` is never given a
negative size, and (c) after a call with `limit > 0` the registry maps the identity to the
returned limiter, whose recorded limit and channel capacity equal `limit`. -/
theorem registry_capacity_invariant (events : List Event) (s : Process)
    (hrun : Process.init.run events = some s) :
    (∀ (configID p : Nat), s.σ.byConfig.lookup configID = some p →
      ∃ l, s.σ.heap[p]? = some l ∧ 1 ≤ l.limit ∧ (l.ch.cap : Int) = l.limit) ∧
    (∀ (configID : Nat) (limit : Int),
      ∃ r σ1, getLimiterForConfig s.σ configID limit = some (r, σ1)) ∧
    (∀ (configID : Nat) (limit : Int), 0 < limit →
      ∃ p σ1 l, getLimiterForConfig s.σ configID limit = some (some p, σ1) ∧
        σ1.byConfig.lookup configID = some p ∧ σ1.heap[p]? = some l ∧
        l.limit = limit ∧ (l.ch.cap : Int) = limit) := by
  obtain ⟨h1, _, _⟩ := Process.procInv_run events Process.init s Process.Inv_init hrun
  have hv : s.σ.Valid := Process.valid_run events Process.init s State.valid_init hrun
  refine ⟨?_, ?_, ?_⟩
  · intro configID p hp
    have hlt := hv configID p hp
    refine ⟨s.σ.heap[p], List.getElem?_eq_getElem hlt, ?_⟩
    obtain ⟨hpos, hcap, _, _⟩ := h1 p _ (List.getElem?_eq_getElem hlt)
    refine ⟨by omega, ?_⟩
    rw [hcap, Int.toNat_of_nonneg (le_of_lt hpos)]
  · intro configID limit
    rcases getLimiterForConfig_cases s.σ configID limit with
      ⟨_, h⟩ | ⟨_, p, l, _, _, h⟩ | ⟨_, h⟩
    · exact ⟨_, _, h⟩
    · exact ⟨_, _, h⟩
    · exact ⟨_, _, h⟩
  · intro configID limit hpos
    cases hp : lookupExisting s.σ configID limit with
    | some p =>
      obtain ⟨l, hl, hlim⟩ := lookupExisting_some s.σ configID limit p hp
      obtain ⟨hp0, hcap, _, _⟩ := h1 p l hl
      refine ⟨p, s.σ, l, getLimiterForConfig_hit s.σ configID limit hpos p hp,
        lookupExisting_lookup s.σ configID limit p hp, hl, hlim, ?_⟩
      rw [hcap, Int.toNat_of_nonneg (le_of_lt hp0), hlim]
    | none =>
      refine ⟨s.σ.heap.length, _, { limit := limit, ch := { cap := limit.toNat, len := 0 } },
        getLimiterForConfig_miss s.σ configID limit hpos hp, ?_, ?_, rfl, ?_⟩
      · exact AList.lookup_insert _
      · exact List.getElem?_concat_length _ _
      · exact Int.toNat_of_nonneg (le_of_lt hpos)

/-- Witness for C18: the state reached by `flipFlop`, where identity 7 is recorded with the
limiter at pointer 2, and a further lookup of identity 7 with limit 3. -/
theorem registry_capacity_invariant_witness :
    Process.init.run flipFlop = some flipFlopEnd ∧
    (∃ l, flipFlopEnd.σ.heap[2]? = some l ∧ 1 ≤ l.limit ∧ (l.ch.cap : Int) = l.limit) ∧
    (∃ p σ1 l, getLimiterForConfig flipFlopEnd.σ 7 3 = some (some p, σ1) ∧
        σ1.byConfig.lookup 7 = some p ∧ σ1.heap[p]? = some l ∧
        l.limit = 3 ∧ (l.ch.cap : Int) = 3) :=
  ⟨rfl, (registry_capacity_invariant flipFlop flipFlopEnd rfl).1 7 2 (by decide),
   (registry_capacity_invariant flipFlop flipFlopEnd rfl).2.2 7 3 (by decide)⟩

/-! ### Admission order at a limiter of capacity 2 -/

/-- Claim C14: an acquire step is enabled exactly when the occupancy is below the capacity,
and it raises the occupancy by one and changes nothing else. Scenario: identity 7 with settings
`max_concurrency = 2` gets a fresh limiter of capacity 2; of three calls, calls 0 and 1 pass
`acquire` at once; the acquire of call 2 is not enabled while both hold their slots, neither
while both are inside the delegated capability nor after call 0 has come back from it but has
not released; it is enabled, and admits call 2, once call 0 has released. -/
theorem acquire_enabled_iff_free_slot :
    (∀ l : aiConcurrencyLimiter,
      l.acquire = if l.ch.len < l.ch.cap
        then some { limit := l.limit, ch := { cap := l.ch.cap, len := l.ch.len + 1 } }
        else none) ∧
    (getLimiterForConfig State.init 7
        (AIServiceSettings.concurrencyLimit
          { ConcurrencyEnabled := none, MaxConcurrency := some 2 })).map
      (fun r => (r.1, r.2.heap)) = some (some 0, [sampleLimiter]) ∧
    (Calls.start sampleLimiter 3).run [0, 1] =
      some { limiter := { limit := 2, ch := { cap := 2, len := 2 } },
             pcs := [CallPC.inCall, CallPC.inCall, CallPC.atAcquire] } ∧
    ((Calls.start sampleLimiter 3).run [0, 1]).bind (fun s => s.step 2) = none ∧
    (Calls.start sampleLimiter 3).run [0, 1, 0] = some sampleCalls ∧
    sampleCalls.step 2 = none ∧
    ((Calls.start sampleLimiter 3).run [0, 1, 0, 0]).bind (fun s => s.step 2) =
      some { limiter := { limit := 2, ch := { cap := 2, len := 2 } },
             pcs := [CallPC.done, CallPC.inCall, CallPC.inCall] } := by
  refine ⟨?_, by decide, by decide, by decide, by decide, by decide, by decide⟩
  intro l
  unfold aiConcurrencyLimiter.acquire Chan.send
  by_cases h : l.ch.len < l.ch.cap
  · simp [h]
  · simp [h]

/-! ### The decorator -/

theorem set_of_getElem? {α : Type} (a : α) :
    ∀ (l : List α) (i : Nat), l[i]? = some a → l.set i a = l
  | [], _, h => by simp at h
  | x :: xs, 0, h => by
    have hx : x = a := by simpa using h
    simp [hx]
  | x :: xs, i + 1, h => by
    have h' : xs[i]? = some a := by simpa using h
    simp [set_of_getElem? a xs i h']

theorem acquire_eq_taken (l : aiConcurrencyLimiter) :
    l.acquire = if l.ch.len < l.ch.cap then some l.taken else none := by
  unfold aiConcurrencyLimiter.acquire Chan.send aiConcurrencyLimiter.taken
  by_cases h : l.ch.len < l.ch.cap
  · simp [h]
  · simp [h]

theorem release_taken (l : aiConcurrencyLimiter) : l.taken.release = some l := by
  simp [aiConcurrencyLimiter.release, Chan.recv, aiConcurrencyLimiter.taken]

theorem guarded_of_free {κ α : Type} (limiter : Nat)
    (op : List aiConcurrencyLimiter × κ → Option (α × List aiConcurrencyLimiter × κ))
    (heap : List aiConcurrencyLimiter) (w : κ) (l : aiConcurrencyLimiter)
    (hl : heap[limiter]? = some l) (hfree : l.ch.len < l.ch.cap)
    (hop : ∀ r, op (heap.set limiter l.taken, w) = some r → r.2.1 = heap.set limiter l.taken) :
    guarded limiter op (heap, w) =
      (op (heap.set limiter l.taken, w)).map (fun r => (r.1, heap, r.2.2)) := by
  have hlt : limiter < heap.length := (List.getElem?_eq_some.mp hl).1
  unfold guarded
  simp only [hl, acquire_eq_taken, hfree, if_true]
  cases hr : op (heap.set limiter l.taken, w) with
  | none => rfl
  | some r =>
    obtain ⟨out, heap2, w2⟩ := r
    have hh : heap2 = heap.set limiter l.taken := hop _ hr
    subst hh
    have hget : (heap.set limiter l.taken)[limiter]? = some l.taken :=
      List.getElem?_set_self hlt
    simp only [hget, release_taken, Option.map_some', List.set_set]
    rw [set_of_getElem? l heap limiter hl]

theorem guarded_heap {κ α : Type} (limiter : Nat)
    (op : List aiConcurrencyLimiter × κ → Option (α × List aiConcurrencyLimiter × κ))
    (hop : ∀ s1 r1, op s1 = some r1 → r1.2.1 = s1.1)
    (s : List aiConcurrencyLimiter × κ) (r : α × List aiConcurrencyLimiter × κ)
    (h : guarded limiter op s = some r) : r.2.1 = s.1 := by
  obtain ⟨heap, w⟩ := s
  cases hl : heap[limiter]? with
  | none => simp [guarded, hl] at h
  | some l =>
    by_cases hfree : l.ch.len < l.ch.cap
    · rw [guarded_of_free limiter op heap w l hl hfree (fun r1 h1 => hop _ r1 h1)] at h
      cases hr : op (heap.set limiter l.taken, w) with
      | none => simp [hr] at h
      | some r1 =>
        simp only [hr, Option.map_some'] at h
        have := Option.some.inj h
        subst this
        rfl
    · simp [guarded, hl, acquire_eq_taken, hfree] at h

theorem AIClient.generateText_heap {κ ω ε : Type} (c : AIClient κ ω ε) :
    ∀ (prompt systemPrompt : String) (options : List ω) (s : List aiConcurrencyLimiter × κ)
      (r : (String × Option ε) × List aiConcurrencyLimiter × κ),
      c.GenerateText prompt systemPrompt options s = some r → r.2.1 = s.1 := by
  induction c with
  | external gt gi tc =>
    intro prompt systemPrompt options s r h
    simp only [AIClient.GenerateText] at h
    have := Option.some.inj h
    subst this
    rfl
  | limitedAIClient client limiter ih =>
    intro prompt systemPrompt options s r h
    simp only [AIClient.GenerateText] at h
    exact guarded_heap limiter _ (fun s1 r1 h1 => ih prompt systemPrompt options s1 r1 h1) s r h

theorem AIClient.generateImage_heap {κ ω ε : Type} (c : AIClient κ ω ε) :
    ∀ (prompt size : String) (n : Int) (s : List aiConcurrencyLimiter × κ)
      (r : (List String × Option ε) × List aiConcurrencyLimiter × κ),
      c.GenerateImage prompt size n s = some r → r.2.1 = s.1 := by
  induction c with
  | external gt gi tc =>
    intro prompt size n s r h
    simp only [AIClient.GenerateImage] at h
    have := Option.some.inj h
    subst this
    rfl
  | limitedAIClient client limiter ih =>
    intro prompt size n s r h
    simp only [AIClient.GenerateImage] at h
    exact guarded_heap limiter _ (fun s1 r1 h1 => ih prompt size n s1 r1 h1) s r h

theorem AIClient.testConnection_heap {κ ω ε : Type} (c : AIClient κ ω ε) :
    ∀ (s : List aiConcurrencyLimiter × κ) (r : Option ε × List aiConcurrencyLimiter × κ),
      c.TestConnection s = some r → r.2.1 = s.1 := by
  induction c with
  | external gt gi tc =>
    intro s r h
    simp only [AIClient.TestConnection] at h
    have := Option.some.inj h
    subst this
    rfl
  | limitedAIClient client limiter ih =>
    intro s r h
    simp only [AIClient.TestConnection] at h
    exact guarded_heap limiter _ (fun s1 r1 h1 => ih s1 r1 h1) s r h

/-- Claim C11: for every underlying client `c`, every non-nil limiter with a free slot and all
arguments, each of the three operations of the decorator returns exactly when the underlying
operation, run once on the same arguments while the slot is held, returns; the result and
error are the ones the underlying operation produced, the world of the external clients is the
one that this single underlying call left, and the limiter objects are as before the call. -/
theorem decorator_delegates {κ ω ε : Type} (c : AIClient κ ω ε) (limiter : Nat)
    (heap : List aiConcurrencyLimiter) (l : aiConcurrencyLimiter) (w : κ)
    (hl : heap[limiter]? = some l) (hfree : l.ch.len < l.ch.cap) :
    (∀ (prompt systemPrompt : String) (options : List ω),
      (wrapAIClientWithLimiter c (some limiter)).GenerateText prompt systemPrompt options
          (heap, w) =
        (c.GenerateText prompt systemPrompt options (heap.set limiter l.taken, w)).map
          (fun r => (r.1, heap, r.2.2))) ∧
    (∀ (prompt size : String) (n : Int),
      (wrapAIClientWithLimiter c (some limiter)).GenerateImage prompt size n (heap, w) =
        (c.GenerateImage prompt size n (heap.set limiter l.taken, w)).map
          (fun r => (r.1, heap, r.2.2))) ∧
    (wrapAIClientWithLimiter c (some limiter)).TestConnection (heap, w) =
      (c.TestConnection (heap.set limiter l.taken, w)).map (fun r => (r.1, heap, r.2.2)) := by
  refine ⟨?_, ?_, ?_⟩
  · intro prompt systemPrompt options
    simp only [wrapAIClientWithLimiter, AIClient.GenerateText]
    exact guarded_of_free limiter _ heap w l hl hfree
      (fun r h => AIClient.generateText_heap c prompt systemPrompt options _ r h)
  · intro prompt size n
    simp only [wrapAIClientWithLimiter, AIClient.GenerateImage]
    exact guarded_of_free limiter _ heap w l hl hfree
      (fun r h => AIClient.generateImage_heap c prompt size n _ r h)
  · simp only [wrapAIClientWithLimiter, AIClient.TestConnection]
    exact guarded_of_free limiter _ heap w l hl hfree
      (fun r h => AIClient.testConnection_heap c _ r h)

/-- Witness for C11: the recording client behind the empty limiter of capacity 2. After each
decorated call the record holds exactly one call, with the arguments that were passed, and the
outcome is the recorder's. -/
theorem decorator_delegates_witness :
    (wrapAIClientWithLimiter recorder (some 0)).GenerateText "a" "b" [3]
        ([sampleLimiter], []) =
      some (("", some 5), [sampleLimiter], [("GenerateText", "a", "b")]) ∧
    (wrapAIClientWithLimiter recorder (some 0)).GenerateImage "a" "b" 4
        ([sampleLimiter], []) =
      some (([], some 6), [sampleLimiter], [("GenerateImage", "a", "b")]) ∧
    (wrapAIClientWithLimiter recorder (some 0)).TestConnection ([sampleLimiter], []) =
      some (some 7, [sampleLimiter], [("TestConnection", "", "")]) :=
  ⟨(decorator_delegates recorder 0 [sampleLimiter] sampleLimiter [] rfl (by decide)).1
      "a" "b" [3],
   (decorator_delegates recorder 0 [sampleLimiter] sampleLimiter [] rfl (by decide)).2.1
      "a" "b" 4,
   (decorator_delegates recorder 0 [sampleLimiter] sampleLimiter [] rfl (by decide)).2.2⟩

/-- Claim C12: let the limiter of a decorator have occupancy `k` below its capacity. For each
of the three operations: if the delegated operation, which runs while the decorator holds its
slot and can read the limiter, returns the error `e`, the decorator returns the same result and
the same error `e`, and the limiter objects after the call are those before it. The occupancy
is `k` before the call, `k + 1` in the state the delegated operation runs in, and `k` again
after the call. In small steps the call performs exactly one acquire (occupancy `k + 1`), the
delegated call (occupancy still `k + 1`) and one release (occupancy `k`), and then has no
further step. -/
theorem decorator_error_restores_occupancy {κ ω ε : Type} (c : AIClient κ ω ε)
    (limiter : Nat) (heap : List aiConcurrencyLimiter) (l : aiConcurrencyLimiter) (k : Nat)
    (w : κ) (hl : heap[limiter]? = some l) (hk : l.ch.len = k) (hfree : k < l.ch.cap) :
    (∀ (prompt systemPrompt : String) (options : List ω) (text : String) (e : ε)
      (heap2 : List aiConcurrencyLimiter) (w2 : κ),
      c.GenerateText prompt systemPrompt options (heap.set limiter l.taken, w) =
        some ((text, some e), heap2, w2) →
      (wrapAIClientWithLimiter c (some limiter)).GenerateText prompt systemPrompt options
        (heap, w) = some ((text, some e), heap, w2)) ∧
    (∀ (prompt size : String) (n : Int) (urls : List String) (e : ε)
      (heap2 : List aiConcurrencyLimiter) (w2 : κ),
      c.GenerateImage prompt size n (heap.set limiter l.taken, w) =
        some ((urls, some e), heap2, w2) →
      (wrapAIClientWithLimiter c (some limiter)).GenerateImage prompt size n (heap, w) =
        some ((urls, some e), heap, w2)) ∧
    (∀ (e : ε) (heap2 : List aiConcurrencyLimiter) (w2 : κ),
      c.TestConnection (heap.set limiter l.taken, w) = some (some e, heap2, w2) →
      (wrapAIClientWithLimiter c (some limiter)).TestConnection (heap, w) =
        some (some e, heap, w2)) ∧
    (heap[limiter]?).map (fun l1 => l1.ch.len) = some k ∧
    ((heap.set limiter l.taken)[limiter]?).map (fun l1 => l1.ch.len) = some (k + 1) ∧
    (Calls.start l 1).run [0] = some { limiter := l.taken, pcs := [CallPC.inCall] } ∧
    (Calls.start l 1).run [0, 0] = some { limiter := l.taken, pcs := [CallPC.atRelease] } ∧
    (Calls.start l 1).run [0, 0, 0] = some { limiter := l, pcs := [CallPC.done] } ∧
    (Calls.start l 1).run [0, 0, 0, 0] = none := by
  have hfree' : l.ch.len < l.ch.cap := hk ▸ hfree
  have hlt : limiter < heap.length := (List.getElem?_eq_some.mp hl).1
  have s1 : (Calls.start l 1).step 0 = some { limiter := l.taken, pcs := [CallPC.inCall] } := by
    simp [Calls.start, Calls.step, acquire_eq_taken, hfree']
  have s2 : Calls.step { limiter := l.taken, pcs := [CallPC.inCall] } 0 =
      some { limiter := l.taken, pcs := [CallPC.atRelease] } := by
    simp [Calls.step]
  have s3 : Calls.step { limiter := l.taken, pcs := [CallPC.atRelease] } 0 =
      some { limiter := l, pcs := [CallPC.done] } := by
    simp [Calls.step, release_taken]
  have s4 : Calls.step { limiter := l, pcs := [CallPC.done] } 0 = none := by
    simp [Calls.step]
  refine ⟨?_, ?_, ?_, ?_, ?_, ?_, ?_, ?_, ?_⟩
  · intro prompt systemPrompt options text e heap2 w2 h
    simp only [wrapAIClientWithLimiter, AIClient.GenerateText]
    rw [guarded_of_free limiter _ heap w l hl hfree'
      (fun r h => AIClient.generateText_heap c prompt systemPrompt options _ r h), h]
    rfl
  · intro prompt size n urls e heap2 w2 h
    simp only [wrapAIClientWithLimiter, AIClient.GenerateImage]
    rw [guarded_of_free limiter _ heap w l hl hfree'
      (fun r h => AIClient.generateImage_heap c prompt size n _ r h), h]
    rfl
  · intro e heap2 w2 h
    simp only [wrapAIClientWithLimiter, AIClient.TestConnection]
    rw [guarded_of_free limiter _ heap w l hl hfree'
      (fun r h => AIClient.testConnection_heap c _ r h), h]
    rfl
  · rw [hl, Option.map_some', hk]
  · rw [List.getElem?_set_self hlt, Option.map_some']
    show some (l.ch.len + 1) = some (k + 1)
    rw [hk]
  · simp [Calls.run, s1]
  · simp [Calls.run, s1, s2]
  · simp [Calls.run, s1, s2, s3]
  · simp [Calls.run, s1, s2, s3, s4]

/-- Witness for C12: the probe client fails every operation with the occupancy it reads as the
error value. Behind a limiter of capacity 2 with one slot taken (`k = 1`), the decorator hands
through the error 2, the occupancy `k + 1` that the probe saw during the call, and the
occupancy is 1 afterwards. -/
theorem decorator_error_restores_occupancy_witness :
    (wrapAIClientWithLimiter occupancyProbe (some 0)).GenerateText "a" "b" []
        ([sampleLimiter.taken], []) = some (("", some 2), [sampleLimiter.taken], [2]) ∧
    (wrapAIClientWithLimiter occupancyProbe (some 0)).GenerateImage "a" "b" 1
        ([sampleLimiter.taken], []) = some (([], some 2), [sampleLimiter.taken], [2]) ∧
    (wrapAIClientWithLimiter occupancyProbe (some 0)).TestConnection
        ([sampleLimiter.taken], []) = some (some 2, [sampleLimiter.taken], [2]) ∧
    occupancySeen [sampleLimiter.taken] = 1 ∧
    (Calls.start sampleLimiter.taken 1).run [0, 0, 0] =
      some { limiter := sampleLimiter.taken, pcs := [CallPC.done] } :=
  ⟨(decorator_error_restores_occupancy occupancyProbe 0 [sampleLimiter.taken]
      sampleLimiter.taken 1 [] rfl rfl (by decide)).1 "a" "b" [] "" 2 _ _ rfl,
   (decorator_error_restores_occupancy occupancyProbe 0 [sampleLimiter.taken]
      sampleLimiter.taken 1 [] rfl rfl (by decide)).2.1 "a" "b" 1 [] 2 _ _ rfl,
   (decorator_error_restores_occupancy occupancyProbe 0 [sampleLimiter.taken]
      sampleLimiter.taken 1 [] rfl rfl (by decide)).2.2.1 2 _ _ rfl,
   by decide,
   (decorator_error_restores_occupancy occupancyProbe 0 [sampleLimiter.taken]
      sampleLimiter.taken 1 [] rfl rfl (by decide)).2.2.2.2.2.2.2.1⟩

/-- Claim C13: `wrapAIClientWithLimiter client nil` is the client itself. Consequently, for
every settings record whose limit is 0 and every identity, wrapping the client with what
`getLimiterForConfig` returns for that limit gives the client itself, and the state is
unchanged: no limiter is allocated and nothing is stored in the registry. -/
theorem wrap_nil_is_client {κ ω ε : Type} (client : AIClient κ ω ε) :
    wrapAIClientWithLimiter client none = client ∧
    ∀ (s : AIServiceSettings) (σ : State) (configID : Nat), s.concurrencyLimit = 0 →
      (getLimiterForConfig σ configID s.concurrencyLimit).map
        (fun r => (wrapAIClientWithLimiter client r.1, r.2)) = some (client, σ) := by
  refine ⟨rfl, ?_⟩
  intro s σ configID h
  rw [h]
  simp [getLimiterForConfig, wrapAIClientWithLimiter]

/-- Witness for C13: the empty settings record, whose limit is 0, for identity 7. -/
theorem wrap_nil_is_client_witness :
    (getLimiterForConfig sampleState 7
        (AIServiceSettings.concurrencyLimit
          { ConcurrencyEnabled := none, MaxConcurrency := none })).map
      (fun r => (wrapAIClientWithLimiter recorder r.1, r.2)) = some (recorder, sampleState) :=
  (wrap_nil_is_client recorder).2 { ConcurrencyEnabled := none, MaxConcurrency := none }
    sampleState 7 (by decide)

end Services
